import Mathlib

/-!
Verification of the umanux user-database library against its specification.

The development is a shallow embedding of the library's core: the record
model (`User`, `Shadow`, `Group`, `Position`, `Numbered`), the
change-tracking lock manager and locked-file handle, the cross-referenced
database with its load/cross-link routines, the delete-user/create-user
transactions, and the compositional mutation atoms.

Strings are modelled as `List Char` (the sources operate on UTF-8 Rust
strings; every content exercised here is ASCII, so chars and bytes
coincide, which matters only for the file-cursor arithmetic).  Fallible
Rust code returns `Except RustAbort`, where `RustAbort.err` models a
returned `Err(UserLibError)` value and `RustAbort.panicked` models a Rust
panic (including `todo!`/`expect`/`unwrap` aborts) - the two are distinct
outcomes in the sources and the distinction is load-bearing for the
error-handling claims.
-/

deriving instance DecidableEq for Except

namespace Umanux

abbrev Chars := List Char

/-- Rust `str::trim` (leading and trailing whitespace removed; the
whitespace classes of `char::is_whitespace` and `Char.isWhitespace` agree
on the ASCII content exercised here). -/
def rustTrim (xs : Chars) : Chars :=
  ((xs.dropWhile Char.isWhitespace).reverse.dropWhile Char.isWhitespace).reverse

/-- Rust `str::split(c)` for a single-character pattern: splits at every
occurrence of `sep`, keeping empty segments; always returns at least one
segment. -/
def splitCh (sep : Char) : Chars → List Chars
  | [] => [[]]
  | c :: rest =>
    let r := splitCh sep rest
    if c = sep then [] :: r else (c :: r.headD []) :: r.tail

/-- Rust `[&str]::join(sep)`. -/
def joinWith (sep : Chars) : List Chars → Chars
  | [] => []
  | [x] => x
  | x :: y :: ys => x ++ sep ++ joinWith sep (y :: ys)

/-- Worker for `splitSub`, with explicit fuel (one unit per consumed
character suffices; `splitSub` passes `length + 1`). -/
def splitSubGo (sep : Chars) : Nat → Chars → List Chars
  | 0, xs => [xs]
  | fuel + 1, xs =>
    if sep.isPrefixOf xs ∧ sep ≠ [] then
      [] :: splitSubGo sep fuel (xs.drop sep.length)
    else
      match xs with
      | [] => [[]]
      | c :: rest =>
        let r := splitSubGo sep fuel rest
        (c :: r.headD []) :: r.tail

/-- Rust `str::split(pattern)` for a string pattern: splits at each
non-overlapping occurrence scanned left to right; an empty pattern
matches between every pair of characters and at both ends (so
`"ab".split("")` is `["", "a", "b", ""]`). -/
def splitSub (sep xs : Chars) : List Chars :=
  if sep = [] then [] :: xs.map (fun c => [c]) ++ [[]]
  else splitSubGo sep (xs.length + 1) xs

/-- Rust `str::lines()`: strip one trailing `'\r'` per line after
splitting at `'\n'`; a final empty segment (from a trailing newline, or
from the empty string) yields no line. -/
def rustLines (xs : Chars) : List Chars :=
  let ps := splitCh '\n' xs
  let ps := if ps.getLast? = some [] then ps.dropLast else ps
  ps.map (fun l => if l.getLast? = some '\r' then l.dropLast else l)

/-- Canonical decimal rendering of a natural number (Rust `u32`/`u64`
`Display`). -/
def renderNat (n : Nat) : Chars := Nat.toDigits 10 n

/-- Canonical decimal rendering of an integer (Rust `i64` `Display`). -/
def renderInt (i : Int) : Chars :=
  if i < 0 then '-' :: renderNat i.natAbs else renderNat i.toNat

/-- Digit-string value, `none` unless the string is one or more ASCII
digits. -/
def parseDigits (xs : Chars) : Option Nat :=
  if xs ≠ [] ∧ xs.all Char.isDigit then
    some (xs.foldl (fun acc c => 10 * acc + (c.toNat - '0'.toNat)) 0)
  else none

/-- Rust `str::parse::<i64>()`: optional sign, digits, rejecting values
outside the `i64` range. -/
def rustParseI64 (xs : Chars) : Option Int :=
  match xs with
  | '+' :: rest => (parseDigits rest).bind fun n =>
      if (n : Int) ≤ 9223372036854775807 then some (n : Int) else none
  | '-' :: rest => (parseDigits rest).bind fun n =>
      if (n : Int) ≤ 9223372036854775808 then some (-(n : Int)) else none
  | _ => (parseDigits xs).bind fun n =>
      if (n : Int) ≤ 9223372036854775807 then some (n : Int) else none

/-- Rust `str::parse::<u64>()`: optional plus sign, digits, bounded by
the `u64` range. -/
def rustParseU64 (xs : Chars) : Option Nat :=
  match xs with
  | '+' :: rest => (parseDigits rest).bind fun n =>
      if n ≤ 18446744073709551615 then some n else none
  | _ => (parseDigits xs).bind fun n =>
      if n ≤ 18446744073709551615 then some n else none

/-- Outcome of fallible Rust code: a returned tagged error value, or a
panic (process abort by unwinding). -/
inductive RustAbort : Type
  | err (msg : Chars)
  | panicked (msg : Chars)
deriving DecidableEq, Repr

/-- `src/user/mod.rs` - `Position`: where a record lives relative to its
backing file. -/
inductive Position : Type
  | At (line : Nat)
  | NotInFile
  | NewToFile
  | NotAssignedYet
deriving DecidableEq, Repr

/-- `src/user/mod.rs` - `impl PartialOrd for Position`: a direct
translation of the `match`, preserving arm order (the `(NewToFile, _)`
arm fires before the later arms, so `NewToFile` compares `Greater`
against every right-hand side). -/
def Position.partialCmp : Position → Position → Option Ordering
  | .At n, .At o => some (compare n o)
  | .NewToFile, _ => some .gt
  | .At _, .NewToFile => some .lt
  | .NotInFile, _ | _, .NotInFile | .NotAssignedYet, _ | _, .NotAssignedYet => none

/-- `src/group/mod.rs` (declaration visible from its users in
`src/userlib/mod.rs`) - kind of a user→group membership edge. -/
inductive MembershipKind : Type
  | Primary
  | Member
deriving DecidableEq, Repr

/-- `src/userlib/mod.rs` - `Numbered<T>`: a value tagged with its
original line index. -/
structure Numbered (α : Type) : Type where
  pos : Nat
  value : α
deriving DecidableEq, Repr

/-- Rust `content.split(&source).map(str::trim).collect().join("\n")` -
the body shared by `User::remove_in`, `Shadow::remove_in` (both
`src/user/...`) and, per the spec, `Group::remove_in`. -/
def removeIn (source content : Chars) : Chars :=
  joinWith ['\n'] ((splitSub source content).map rustTrim)

/-- `src/user/shadow_fields.rs` - `Shadow`.  `chrono::NaiveDateTime` is
embedded as its unix timestamp in seconds and `chrono::Duration` as its
whole-day count; the `chrono` constructors are treated as total over the
parsed `i64` (their far-range panics are not modelled, and no claim
exercises them). -/
structure Shadow : Type where
  source : Chars
  username : Chars
  password : Chars
  last_change : Option Int
  earliest_change : Option Int
  latest_change : Option Int
  warn_period : Option Int
  deactivated : Option Int
  deactivated_since : Option Int
  extensions : Option Nat
deriving DecidableEq, Repr

/-- `src/user/shadow_fields.rs` - `date_since_epoch`: empty ⇒ absent;
otherwise `days.parse::<i64>().unwrap()` (a parse failure is a panic)
and the stored datetime is `days * 86400` seconds. -/
def dateSinceEpoch (s : Chars) : Except RustAbort (Option Int) :=
  if s = [] then .ok none
  else
    match rustParseI64 s with
    | some days => .ok (some (days * 86400))
    | none => .error (.panicked "invalid digit found in string".data)

/-- `src/user/shadow_fields.rs` - `duration_for_days`: empty ⇒ absent;
otherwise the parsed day count (`unwrap` panics on a parse failure). -/
def durationForDays (s : Chars) : Except RustAbort (Option Int) :=
  if s = [] then .ok none
  else
    match rustParseI64 s with
    | some days => .ok (some days)
    | none => .error (.panicked "invalid digit found in string".data)

/-- `src/user/shadow_fields.rs` - `show_option_date`: absent renders as
the empty string, otherwise `timestamp / 86400` with Rust's
truncating `i64` division. -/
def showOptionDate : Option Int → Chars
  | none => []
  | some ts => renderInt (Int.tdiv ts 86400)

/-- `src/user/shadow_fields.rs` - `show_option_duration`. -/
def showOptionDuration : Option Int → Chars
  | none => []
  | some d => renderInt d

/-- Modelled from the spec: `Username::try_from` lives in
`src/user/passwd_fields.rs`, which is not part of the sources here; per
§3 the username must be non-empty and the leaf validators are "treated
as total functions over well-formed field strings", so the model rejects
the empty string and otherwise stores the field verbatim. -/
def usernameTryFrom (xs : Chars) : Except RustAbort Chars :=
  if xs = [] then .error (.err "empty username".data) else .ok xs

/-- Modelled from the spec: `EncryptedPassword::try_from`
(`src/user/passwd_fields.rs`, absent) - a simple value parser storing
the field verbatim. -/
def encryptedPasswordTryFrom (xs : Chars) : Except RustAbort Chars := .ok xs

/-- Modelled from the spec: `Uid::try_from`/`Gid::try_from`
(`src/user/passwd_fields.rs`, absent) - per §3 a "non-negative 32-bit
value"; the model accepts exactly the canonical decimal renderings so
that `Display` (which prints the stored `u32`) inverts it, per the §3/§8
round-trip invariant. -/
def u32TryFrom (xs : Chars) : Except RustAbort Nat :=
  match parseDigits xs with
  | some v =>
    if renderNat v = xs ∧ v < 4294967296 then .ok v
    else .error (.err "invalid 32-bit id".data)
  | none => .error (.err "invalid 32-bit id".data)

/-- Modelled from the spec: `Gecos`/`HomeDir`/`ShellPath` `try_from`
(`src/user/passwd_fields.rs` and `src/user/gecos_fields.rs`, absent) -
§1 excludes these leaf parsers as external collaborators "treated as
simple value parsers", so the model stores the field verbatim. -/
def verbatimTryFrom (xs : Chars) : Except RustAbort Chars := .ok xs

/-- `src/user/shadow_fields.rs` - the `extensions` field of
`Shadow::from_str`: empty ⇒ absent, otherwise
`extra.parse::<u64>().unwrap()` (panicking on a parse failure). -/
def parseExtensions (extra : Chars) : Except RustAbort (Option Nat) :=
  if extra = [] then .ok none
  else
    match rustParseU64 extra with
    | some n => .ok (some n)
    | none => .error (.panicked "invalid digit found in string".data)

/-- `src/user/shadow_fields.rs` - `impl FromStr for Shadow`: nine
colon-separated fields, the optional date/duration/extension fields
parsed by the helpers above. -/
def shadowFromStr (line : Chars) : Except RustAbort Shadow :=
  match splitCh ':' line with
  | [e0, e1, e2, e3, e4, e5, e6, e7, e8] => do
    let username ← usernameTryFrom e0
    let password ← encryptedPasswordTryFrom e1
    let last_change ← dateSinceEpoch e2
    let earliest_change ← dateSinceEpoch e3
    let latest_change ← dateSinceEpoch e4
    let warn_period ← durationForDays e5
    let deactivated ← durationForDays e6
    let deactivated_since ← durationForDays e7
    let extensions ← parseExtensions e8
    pure { source := line, username, password, last_change, earliest_change,
           latest_change, warn_period, deactivated, deactivated_since, extensions }
  | _ => .error (.err "Failed to parse: not enough elements".data)

/-- `src/user/shadow_fields.rs` - `impl Display for Shadow`. -/
def Shadow.display (s : Shadow) : Chars :=
  joinWith [':']
    [s.username, s.password,
     showOptionDate s.last_change, showOptionDate s.earliest_change,
     showOptionDate s.latest_change, showOptionDuration s.warn_period,
     showOptionDuration s.deactivated, showOptionDuration s.deactivated_since,
     match s.extensions with | none => [] | some n => renderNat n]

/-- `src/user/shadow_fields.rs` - `Shadow::remove_in`. -/
def Shadow.remove_in (s : Shadow) (content : Chars) : Chars :=
  removeIn s.source content

/-- `src/user/shadow_fields.rs` - `Shadow::set_username`. -/
def Shadow.set_username (s : Shadow) (username : Chars) : Shadow :=
  { s with username }

/-- `src/user/passwd_fields.rs` (absent; variants visible in
`src/user/mod.rs`) - `Password`. -/
inductive Password : Type
  | Encrypted (password : Chars)
  | Shadow (s : Numbered Umanux.Shadow)
  | Disabled
deriving DecidableEq, Repr

/-- Modelled from the spec: `Password`'s `Display`
(`src/user/passwd_fields.rs`, absent).  The `Shadow` variant prints
`x` - pinned by the source test `test_add_passwd_line`
(`src/userlib/files/oplog/atoms.rs`), which asserts that the default
(shadow-password) user formats as
`defaultusername:x:1001:1001::/:/bin/nologin`; `Encrypted` prints the
stored hash (required by the §8 round-trip); `Disabled` is never
formatted by any claim and is rendered empty here. -/
def Password.display : Password → Chars
  | .Encrypted p => p
  | .Shadow _ => ['x']
  | .Disabled => []

/-- `src/user/mod.rs` - `User`.  Group edges are `(MembershipKind, i)`
pairs where `i` indexes the database's group list: the sources store an
`Rc<RefCell<Numbered<Group>>>` shared with `UserDBLocal::groups`, and
the index stands for that shared reference (all consumers in the sources
immediately project it to the group or its gid). -/
structure User : Type where
  source : Chars
  pos : Position
  username : Chars
  password : Password
  uid : Nat
  gid : Nat
  gecos : Chars
  home_dir : Chars
  shell_path : Chars
  groups : List (MembershipKind × Nat)
deriving DecidableEq, Repr

/-- `src/user/mod.rs` - `User::get_shadow`. -/
def User.get_shadow (u : User) : Option (Numbered Shadow) :=
  match u.password with
  | .Shadow s => some s
  | _ => none

/-- `src/user/mod.rs` - `User::remove_in`: content split at the stored
verbatim source line, fragments trimmed, rejoined with newlines.  Note
that this returns a plain `String` - it has no failure channel. -/
def User.remove_in (u : User) (content : Chars) : Chars :=
  removeIn u.source content

/-- `src/user/mod.rs` - `User::username` (builder setter): also renames
the embedded shadow record. -/
def User.set_username (u : User) (name : Chars) : User :=
  { u with
    username := name,
    password :=
      match u.password with
      | .Shadow s => .Shadow { s with value := s.value.set_username name }
      | p => p }

/-- `src/user/mod.rs` - `User::add_group`. -/
def User.add_group (u : User) (kind : MembershipKind) (idx : Nat) : User :=
  { u with groups := u.groups ++ [(kind, idx)] }

/-- `src/user/mod.rs` - `impl FromStr for User`: seven colon-separated
fields; the password is always stored as `Password::Encrypted`. -/
def userFromStr (line : Chars) : Except RustAbort User :=
  match splitCh ':' line with
  | [e0, e1, e2, e3, e4, e5, e6] => do
    let username ← usernameTryFrom e0
    let password ← encryptedPasswordTryFrom e1
    let uid ← u32TryFrom e2
    let gid ← u32TryFrom e3
    let gecos ← verbatimTryFrom e4
    let home_dir ← verbatimTryFrom e5
    let shell_path ← verbatimTryFrom e6
    pure { source := line, pos := .NotAssignedYet, username,
           password := .Encrypted password, uid, gid, gecos, home_dir,
           shell_path, groups := [] }
  | _ => .error (.err "Failed to parse: not enough elements".data)

/-- `src/user/mod.rs` - `impl Display for User`. -/
def User.display (u : User) : Chars :=
  joinWith [':']
    [u.username, u.password.display, renderNat u.uid, renderNat u.gid,
     u.gecos, u.home_dir, u.shell_path]

/-- `src/user/mod.rs` - the line `"defaultusername:!!:0:0:99999:7:::"`
parsed by `impl Default for User`. -/
def shadowDefaultLine : Chars := "defaultusername:!!:0:0:99999:7:::".data

/-- The value of `shadowDefaultLine.parse::<Shadow>().unwrap()`
(see `shadowDefault_parses`). -/
def shadowDefault : Shadow :=
  { source := shadowDefaultLine
    username := "defaultusername".data
    password := "!!".data
    last_change := some 0
    earliest_change := some 0
    latest_change := some (99999 * 86400)
    warn_period := some 7
    deactivated := none
    deactivated_since := none
    extensions := none }

theorem shadowDefault_parses : shadowFromStr shadowDefaultLine = .ok shadowDefault := by
  decide

/-- `src/user/mod.rs` - `impl Default for User`: empty source, position
`NewToFile`, shadow password parsed from `shadowDefaultLine` numbered
`usize::max_value()`, uid/gid 1001, empty simple gecos, home `/`, shell
`/bin/nologin`. -/
def userDefault : User :=
  { source := []
    pos := .NewToFile
    username := "defaultusername".data
    password := .Shadow ⟨18446744073709551615, shadowDefault⟩
    uid := 1001
    gid := 1001
    gecos := []
    home_dir := "/".data
    shell_path := "/bin/nologin".data
    groups := [] }

/-- Modelled from the spec: `Group` (`src/group/mod.rs` is not part of
the sources here; §3/§6 give the shape `groupname:password:gid:` plus a
comma-separated ordered member list, and its methods' signatures are
visible at the call sites in `src/userlib/mod.rs`). -/
structure Group : Type where
  source : Chars
  groupname : Chars
  password : Chars
  gid : Nat
  members : List Chars
deriving DecidableEq, Repr

/-- Modelled from the spec: `Group`'s `FromStr` - four colon-separated
fields, the member list split at commas (an empty fourth field is an
empty member list, matching §3's "ordered set of member usernames" and
the empty-group lines of the source tests). -/
def groupFromStr (line : Chars) : Except RustAbort Group :=
  match splitCh ':' line with
  | [e0, e1, e2, e3] => do
    let groupname ← usernameTryFrom e0
    let password ← encryptedPasswordTryFrom e1
    let gid ← u32TryFrom e2
    pure { source := line, groupname, password, gid,
           members := if e3 = [] then [] else splitCh ',' e3 }
  | _ => .error (.err "Failed to parse: not enough elements".data)

/-- Modelled from the spec: `Group`'s `Display` - §6's
`groupname:password:gid:member1,member2,...`. -/
def Group.display (g : Group) : Chars :=
  joinWith [':'] [g.groupname, g.password, renderNat g.gid, joinWith [','] g.members]

/-- Modelled from the spec: `Group::remove_in`, the same verbatim-line
removal as `User::remove_in`/`Shadow::remove_in` (§4.4); its
`&str → String` signature - no failure channel - is visible at the call
site `UserDBLocal::delete_from_group` in `src/userlib/mod.rs`. -/
def Group.remove_in (g : Group) (content : Chars) : Chars :=
  removeIn g.source content

/-- Modelled from the spec: `Group::append_user` (call site in
`groups_to_users`, `src/userlib/mod.rs`): appends the username to the
member list (§4.3 "append the username to that group's member list"). -/
def Group.append_user (g : Group) (name : Chars) : Group :=
  { g with members := g.members ++ [name] }

/-- Modelled from the spec: `Group::remove_member` (call sites in
`UserDBWrite::delete_user`): removes the username's membership entry
(§4.4 "remove the membership entry from the group"); the
`MembershipKind` argument does not affect the name-list removal. -/
def Group.remove_member (g : Group) (_kind : MembershipKind) (name : Chars) : Group :=
  { g with members := g.members.filter (fun m => m ≠ name) }

/-- `src/userlib/files/oplog/atoms.rs` - `AddPasswdLine::execute`. -/
def addPasswdLine (u : User) (content : Chars) : Except RustAbort Chars :=
  .ok (content ++ u.display ++ ['\n'])

/-- `src/userlib/files/oplog/atoms.rs` - `AddShadowLine::execute`
(a user without a shadow entry is an `expect` panic). -/
def addShadowLine (u : User) (content : Chars) : Except RustAbort Chars :=
  match u.get_shadow with
  | some sh => .ok (content ++ sh.value.display ++ ['\n'])
  | none => .error (.panicked "The user does not have a shadow field but this is required".data)

/-- `src/userlib/files/oplog/atoms.rs` - `AddGroupLine::execute`. -/
def addGroupLine (g : Group) (content : Chars) : Except RustAbort Chars :=
  .ok (content ++ g.display ++ ['\n'])

/-- `src/userlib/files/oplog/atoms.rs` - `DeletePasswdLine::execute`:
filter out every line equal to the user's formatted line; succeed only
if the line count dropped by exactly one. -/
def deletePasswdLine (u : User) (content : Chars) : Except RustAbort Chars :=
  let selfline := u.display
  let lenBefore := (rustLines content).length
  let result := joinWith ['\n'] ((rustLines content).filter (fun l => l ≠ selfline))
  let lenAfter := (rustLines result).length
  if lenBefore - lenAfter = 1 then .ok result
  else .error (.err "Failed to delete the user".data)

/-- `src/userlib/files/oplog/atoms.rs` - `DeleteShadowLine::execute`. -/
def deleteShadowLine (u : User) (content : Chars) : Except RustAbort Chars :=
  match u.get_shadow with
  | none => .error (.panicked "the user has to have a shadow entry".data)
  | some sh =>
    let selfline := sh.value.display
    let lenBefore := (rustLines content).length
    let result := joinWith ['\n'] ((rustLines content).filter (fun l => l ≠ selfline))
    let lenAfter := (rustLines result).length
    if lenBefore - lenAfter = 1 then .ok result
    else .error (.err "Failed to delete the users shadow".data)

/-- `src/userlib/files/oplog/atoms.rs` - `DeleteGroupLine::execute`. -/
def deleteGroupLine (g : Group) (content : Chars) : Except RustAbort Chars :=
  let selfline := g.display
  let lenBefore := (rustLines content).length
  let result := joinWith ['\n'] ((rustLines content).filter (fun l => l ≠ selfline))
  let lenAfter := (rustLines result).length
  if lenBefore - lenAfter = 1 then .ok result
  else .error (.err "Failed to delete the group".data)

/-! ### Association-list model of `HashMap<String, Numbered<User>>`

The sources key users by username in a `HashMap`; the embedding uses an
association list.  Insertion order is preserved where the `HashMap`'s
iteration order is arbitrary; every property proved about iteration
(`groups_to_users`' second pass) is insensitive to that order. -/

def lookupA {α : Type} : List (Chars × α) → Chars → Option α
  | [], _ => none
  | (k, v) :: rest, key => if k = key then some v else lookupA rest key

def updateA {α : Type} : List (Chars × α) → Chars → (α → α) → List (Chars × α)
  | [], _, _ => []
  | (k, v) :: rest, key, f =>
    if k = key then (k, f v) :: rest else (k, v) :: updateA rest key f

def insertA {α : Type} (m : List (Chars × α)) (key : Chars) (v : α) : List (Chars × α) :=
  if (lookupA m key).isSome then updateA m key (fun _ => v) else m ++ [(key, v)]

def removeA {α : Type} : List (Chars × α) → Chars → List (Chars × α)
  | [], _ => []
  | (k, v) :: rest, key => if k = key then rest else (k, v) :: removeA rest key

def modifyIdx {α : Type} : List α → Nat → (α → α) → List α
  | [], _, _ => []
  | x :: xs, 0, f => f x :: xs
  | x :: xs, n + 1, f => x :: modifyIdx xs n f

/-! ### Change-tracking lock manager and locked file handle
(`src/userlib/files.rs`)

A table file on disk is a `FileState`: its content plus the "last known
good" snapshot held by the owning `ChangeTrackingPath`.  A held lock is
a `LockedFileGuard`: the file's content, the read/write cursor of the
opened descriptor (in bytes; all content here is ASCII), and the shared
snapshot cell. -/

structure FileState : Type where
  content : Chars
  snapshot : Chars
deriving DecidableEq, Repr

structure LockedFileGuard : Type where
  content : Chars
  cursor : Nat
  snapshot : Chars
deriving DecidableEq, Repr

def FileState.ofGuard (g : LockedFileGuard) : FileState :=
  { content := g.content, snapshot := g.snapshot }

/-- `src/userlib/files.rs` - `ChangeTrackingPath::new`: lock, read, store
the trimmed content as the snapshot, unlock. -/
def changeTrackingPathNew (content : Chars) : FileState :=
  { content, snapshot := rustTrim content }

/-- `src/userlib/mod.rs` - `file_to_string`: `read_to_string` on the open
descriptor reads from the current cursor to the end and leaves the
cursor at the end. -/
def fileToString (f : LockedFileGuard) : Chars × LockedFileGuard :=
  (f.content.drop f.cursor, { f with cursor := f.content.length })

/-- `src/userlib/files.rs` - `LockedFileGuard::replace_contents`:
truncate, write the new content plus a final newline (cursor ends at
end-of-file), and update the shared snapshot to the trimmed new
content.  The I/O `Err` branches are write failures of the filesystem,
modelled as succeeding. -/
def LockedFileGuard.replace_contents (_f : LockedFileGuard) (new_content : Chars) :
    LockedFileGuard :=
  { content := new_content ++ ['\n'],
    cursor := new_content.length + 1,
    snapshot := rustTrim new_content }

/-- `src/userlib/files.rs` - `LockedFileGuard::append`: seek to one byte
before the end (an I/O error on an empty file - the seek target would be
negative), read that byte, write a separating newline unless it already
is one, then write the appendee (with no trailing newline).  The
snapshot is not updated.  -/
def LockedFileGuard.append (f : LockedFileGuard) (appendee : Chars) :
    Except RustAbort LockedFileGuard :=
  if f.content.length = 0 then .error (.err "Failed to append to file".data)
  else
    let newContent :=
      if f.content.getLast? = some '\n' then f.content ++ appendee
      else f.content ++ '\n' :: appendee
    .ok { f with content := newContent, cursor := newContent.length }

/-- `src/userlib/files.rs` - `Files::check_if_dirty` inlined into
`Files::lock_guarded_passwd`/`_shadow`/`_group`: after the hardlink lock
succeeds the file is opened (cursor 0), read, compared **trimmed**
against the trimmed snapshot; on a match the cursor is seeked back to 0
and the guard handed out, otherwise the acquisition fails with the
dirty-file error and nothing is written. -/
def lockGuardedFile (fs : FileState) : Except RustAbort LockedFileGuard :=
  if rustTrim fs.snapshot = rustTrim fs.content then
    .ok { content := fs.content, cursor := 0, snapshot := fs.snapshot }
  else
    .error (.err "The file has been modified by another process. Abort to avoid corruption.".data)

structure FilesState : Type where
  passwd : FileState
  shadow : FileState
  group : FileState
deriving DecidableEq, Repr

/-- `src/userlib/files.rs` - `Files::new` over three table contents. -/
def filesNew (p s g : Chars) : FilesState :=
  { passwd := changeTrackingPathNew p,
    shadow := changeTrackingPathNew s,
    group := changeTrackingPathNew g }

/-- `src/userlib/files.rs` - `Files::lock_all_get` (paths are always
configured when a `FilesState` exists). -/
def lockAllGet (fs : FilesState) :
    Except RustAbort (LockedFileGuard × LockedFileGuard × LockedFileGuard) := do
  let p ← lockGuardedFile fs.passwd
  let s ← lockGuardedFile fs.shadow
  let g ← lockGuardedFile fs.group
  pure (p, s, g)

/-- `lock_all_get` followed by the callers' `.expect("failed to lock
files!")`: any acquisition failure is a panic at the call sites in
`load_files`, `delete_user` and `new_user`. -/
def lockAllExpect (fs : FilesState) :
    Except RustAbort (LockedFileGuard × LockedFileGuard × LockedFileGuard) :=
  match lockAllGet fs with
  | .ok x => .ok x
  | .error _ => .error (.panicked "failed to lock files!".data)

/-! ### Lock acquisition against another process (for the locking claim)

`Files::try_to_lock_file` attempts the temp-file + hardlink dance; when
the lock file already exists and holds a parseable pid the function hits
`todo!("Validate the lock ...")` - a panic.  `TableFile` pairs the file
state with whether the `.lock` file currently exists. -/

structure TableFile : Type where
  state : FileState
  locked : Bool
deriving DecidableEq, Repr

/-- `src/userlib/files.rs` - `Files::try_to_lock_file`: succeeds (creating
the lock file) iff no lock file exists; an existing lock file written by
this convention holds a valid pid, which is the `todo!` panic path. -/
def tryToLockFile (t : TableFile) : Except RustAbort TableFile :=
  if t.locked then
    .error (.panicked "Validate the lock and delete the file if the process does not exist anymore".data)
  else .ok { t with locked := true }

/-- `src/userlib/files.rs` - `Files::lock_guarded_passwd` (likewise
`_shadow`/`_group`) against a lock-file world: hardlink lock, then the
dirty check.  A dirty-check failure leaves the lock file in place (the
intermediate `LockedFileResult` has no `Drop` impl). -/
def lockGuarded (t : TableFile) : Except RustAbort LockedFileGuard × TableFile :=
  match tryToLockFile t with
  | .error e => (.error e, t)
  | .ok t' =>
    match lockGuardedFile t'.state with
    | .ok g => (.ok g, t')
    | .error e => (.error e, t')

/-- `src/userlib/files.rs` - `impl Drop for LockedFileGuard`: removes the
lock file. -/
def releaseGuard (t : TableFile) : TableFile := { t with locked := false }

/-! ### The cross-referenced database (`src/userlib/mod.rs`) -/

structure UserDBLocal : Type where
  source_files : Option FilesState
  users : List (Chars × Numbered User)
  groups : List (Numbered Group)
deriving DecidableEq, Repr

/-- `src/userlib/mod.rs` - `string_to`: parse line by line, tagging each
with its index; the whole conversion fails on the first bad line. -/
def stringToGo {α : Type} (parse : Chars → Except RustAbort α) :
    Nat → List Chars → Except RustAbort (List (Numbered α))
  | _, [] => .ok []
  | pos, l :: ls => do
    let v ← parse l
    let rest ← stringToGo parse (pos + 1) ls
    pure (⟨pos, v⟩ :: rest)

def stringTo {α : Type} (parse : Chars → Except RustAbort α) (source : Chars) :
    Except RustAbort (List (Numbered α)) :=
  stringToGo parse 0 (rustLines source)

/-- `src/userlib/mod.rs` - `user_vec_to_hashmap`: key each user by its
username (`HashMap` collection keeps the last entry per key). -/
def userVecToHashmap (users : List (Numbered User)) : List (Chars × Numbered User) :=
  users.foldl (fun m x => insertA m x.value.username x) []

/-- `src/userlib/mod.rs` - `shadow_to_users`: merge each shadow record
into the user of the same name; a shadow entry whose username has no
user is a **panic** (`unwrap_or_else(|| panic!("the user {} does not
exist", ...))`), not a returned error. -/
def shadowToUsers (users : List (Chars × Numbered User)) :
    List (Numbered Shadow) → Except RustAbort (List (Chars × Numbered User))
  | [] => .ok users
  | pass :: rest =>
    match lookupA users pass.value.username with
    | some _ =>
      shadowToUsers
        (updateA users pass.value.username
          (fun nu => { nu with value := { nu.value with password := .Shadow pass } }))
        rest
    | none =>
      .error (.panicked ("the user ".data ++ pass.value.username ++ " does not exist".data))

/-- One member-name step of `groups_to_users`' first pass: if a user of
that name exists, attach a `Member` edge to group `i`. -/
def addMemberStep (i : Nat) (users : List (Chars × Numbered User)) (uname : Chars) :
    List (Chars × Numbered User) :=
  if (lookupA users uname).isSome then
    updateA users uname (fun nu => { nu with value := nu.value.add_group .Member i })
  else users

/-- `src/userlib/mod.rs` - `groups_to_users`, first pass: for every
group, for every listed member name, attach a `Member` edge to an
existing user of that name. -/
def memberPass (users : List (Chars × Numbered User)) (groups : List (Numbered Group)) :
    List (Chars × Numbered User) :=
  groups.enum.foldl (fun us ig => ig.2.value.members.foldl (addMemberStep ig.1) us) users

/-- One user step of `groups_to_users`' second pass: collect the groups
sharing the user's gid; on a unique match append the username to that
group's member list and attach a `Primary` edge, otherwise only log. -/
def primaryStep (st : List (Chars × Numbered User) × List (Numbered Group)) (k : Chars) :
    List (Chars × Numbered User) × List (Numbered Group) :=
  match lookupA st.1 k with
  | none => st
  | some nu =>
    match st.2.enum.filter (fun ig => ig.2.value.gid = nu.value.gid) with
    | [ig] =>
      (updateA st.1 k (fun nu2 => { nu2 with value := nu2.value.add_group .Primary ig.1 }),
       modifyIdx st.2 ig.1 (fun ng => { ng with value := ng.value.append_user nu.value.username }))
    | _ => st

/-- `src/userlib/mod.rs` - `groups_to_users`: the member pass, then the
primary pass over every user.  The `HashMap` iteration order of the
second pass is arbitrary in the sources; the embedding iterates in list
order (every property proved about the result is order-insensitive). -/
def groupsToUsers (users : List (Chars × Numbered User)) (groups : List (Numbered Group)) :
    List (Chars × Numbered User) × List (Numbered Group) :=
  let users := memberPass users groups
  (users.map Prod.fst).foldl primaryStep (users, groups)

/-- `src/userlib/mod.rs` - `UserDBLocal::import_from_strings`. -/
def importFromStrings (passwd_content shadow_content group_content : Chars) :
    Except RustAbort UserDBLocal := do
  let shadow_entries ← stringTo shadowFromStr shadow_content
  let users := userVecToHashmap (← stringTo userFromStr passwd_content)
  let groups ← stringTo groupFromStr group_content
  let users ← shadowToUsers users shadow_entries
  let (users, groups) := groupsToUsers users groups
  pure { source_files := none, users, groups }

/-- `src/userlib/mod.rs` - `UserDBLocal::load_files`: lock all three
files (failure is an `expect` panic), read them, parse and cross-link
exactly as `import_from_strings`, and remember the `Files`. -/
def loadFiles (files : FilesState) : Except RustAbort UserDBLocal := do
  let (lp, ls, lg) ← lockAllExpect files
  let p := (fileToString lp).1
  let s := (fileToString ls).1
  let g := (fileToString lg).1
  let users := userVecToHashmap (← stringTo userFromStr p)
  let passwds ← stringTo shadowFromStr s
  let groups ← stringTo groupFromStr g
  let users ← shadowToUsers users passwds
  let (users, groups) := groupsToUsers users groups
  pure { source_files := some files, users, groups }

/-- `src/userlib/mod.rs` - `UserDBLocal::delete_from_passwd`: read the
passwd file from the descriptor's current cursor, filter the user's
verbatim source line out via `remove_in`, and replace the file's
contents with the result.  `remove_in` has no failure channel; the `Err`
branch wraps only an I/O write failure (writes are modelled as
succeeding), so the operation never fails on content. -/
def deleteFromPasswd (user : User) (lp : LockedFileGuard) : LockedFileGuard :=
  let (content, lp) := fileToString lp
  lp.replace_contents (user.remove_in content)

/-- `src/userlib/mod.rs` - `UserDBLocal::delete_from_shadow`: same as
`deleteFromPasswd` for the user's shadow record; a user without one is a
no-op `Ok`. -/
def deleteFromShadow (user : User) (ls : LockedFileGuard) : LockedFileGuard :=
  match user.get_shadow with
  | some sh =>
    let (content, ls) := fileToString ls
    ls.replace_contents (sh.value.remove_in content)
  | none => ls

/-- `src/userlib/mod.rs` - `UserDBLocal::delete_from_group`. -/
def deleteFromGroup (g : Numbered Group) (lg : LockedFileGuard) : LockedFileGuard :=
  let (content, lg) := fileToString lg
  lg.replace_contents (g.value.remove_in content)

/-- `src/userlib/mod.rs` - `UserDBLocal::write_groups`' file content:
every in-memory group formatted, joined by newlines. -/
def writeGroupsContent (groups : List (Numbered Group)) : Chars :=
  joinWith ['\n'] (groups.map (fun g => g.value.display))

/-- `src/userlib/mod.rs` - `UserDBLocal::get_group_by_id`: first group
with the gid. -/
def getGroupById (groups : List (Numbered Group)) (id : Nat) : Option (Numbered Group) :=
  groups.find? (fun g => g.value.gid = id)

/-- Mutation through the `Rc` returned by `get_group_by_id`: update the
first group with the gid (no-op when absent, matching the `if let`). -/
def updateFirstByGid : List (Numbered Group) → Nat → (Group → Group) → List (Numbered Group)
  | [], _, _ => []
  | g :: gs, id, f =>
    if g.value.gid = id then { g with value := f g.value } :: gs
    else g :: updateFirstByGid gs id f

/-- `src/userlib/mod.rs` - `delete_user`'s `users_groups` extraction:
each edge mapped to `(kind, gid)` via the shared group reference
(`get_gid().unwrap()`; an out-of-range index models only a state the
`Rc` makes impossible). -/
def edgeGids (groups : List (Numbered Group)) :
    List (MembershipKind × Nat) → Except RustAbort (List (MembershipKind × Nat))
  | [] => .ok []
  | (k, i) :: rest =>
    match groups[i]? with
    | some g => do
      let r ← edgeGids groups rest
      pure ((k, g.value.gid) :: r)
    | none => .error (.panicked "invalid group reference".data)

/-- `src/userlib/mod.rs` - the `for (kind, group) in users_groups` loop
of `delete_user`.  `Primary` edge: when the group's member list has
exactly one entry, delete the group's verbatim line from the group file
and drop the group from the in-memory list; otherwise remove the
membership and rewrite the whole group file from memory.  `Member` edge:
remove the membership and rewrite the group file.  Returns the final
groups, the group-file guard, and the first panic if one occurred. -/
def groupLoop (username : Chars) :
    List (MembershipKind × Nat) → List (Numbered Group) → LockedFileGuard →
    List (Numbered Group) × LockedFileGuard × Option RustAbort
  | [], groups, lg => (groups, lg, none)
  | (kind, gid) :: rest, groups, lg =>
    match kind with
    | .Primary =>
      match getGroupById groups gid with
      | none => (groups, lg, some (.panicked "The group does not exist".data))
      | some g =>
        if g.value.members.length = 1 then
          let lg := deleteFromGroup g lg
          groupLoop username rest (groups.filter (fun g2 => g2.value.gid ≠ gid)) lg
        else
          let groups := updateFirstByGid groups gid (fun gr => gr.remove_member .Primary username)
          let lg := lg.replace_contents (writeGroupsContent groups)
          groupLoop username rest groups lg
    | .Member =>
      let groups := updateFirstByGid groups gid (fun gr => gr.remove_member .Member username)
      let lg := lg.replace_contents (writeGroupsContent groups)
      groupLoop username rest groups lg

/-- `src/userlib/mod.rs` - `UserDBWrite::delete_user` (with
`DeleteHome::NoDelete`, the default of every claim; `Delete` removes the
home directory on the real filesystem, outside this model): look the
user up (`NotFound` otherwise); with no backing files, remove it from
the in-memory map only; otherwise lock all three files, remove the
passwd and shadow lines, run the group loop, and finally remove the user
from the map.  Mutations performed before an abort persist, as they do
on disk. -/
def deleteUser (db : UserDBLocal) (username : Chars) :
    Except RustAbort (Numbered User) × UserDBLocal :=
  match lookupA db.users username with
  | none => (.error (.err "NotFound".data), db)
  | some nu =>
    let user := nu.value
    match db.source_files with
    | none => (.ok nu, { db with users := removeA db.users username })
    | some fs =>
      match lockAllExpect fs with
      | .error e => (.error e, db)
      | .ok (lp, ls, lg) =>
        let lp := deleteFromPasswd user lp
        let ls := deleteFromShadow user ls
        match edgeGids db.groups user.groups with
        | .error e =>
          let fs' : FilesState :=
            ⟨FileState.ofGuard lp, FileState.ofGuard ls, fs.group⟩
          (.error e, { db with source_files := some fs' })
        | .ok ug =>
          match groupLoop username ug db.groups lg with
          | (groups, lg, some e) =>
            let fs' : FilesState :=
              ⟨FileState.ofGuard lp, FileState.ofGuard ls, FileState.ofGuard lg⟩
            (.error e, { db with groups := groups, source_files := some fs' })
          | (groups, lg, none) =>
            let fs' : FilesState :=
              ⟨FileState.ofGuard lp, FileState.ofGuard ls, FileState.ofGuard lg⟩
            (.ok nu,
             { users := removeA db.users username, groups := groups,
               source_files := some fs' })

/-- `src/userlib/mod.rs` - `UserDBWrite::new_user`: reject an existing
username; otherwise bind the default user to the requested name, and
with backing files lock all three, append the formatted passwd line and
- when the new user carries a shadow entry - the formatted shadow line,
then insert into the map (at `usize::max_value()`). -/
def newUser (db : UserDBLocal) (username : Chars) :
    Except RustAbort (Numbered User) × UserDBLocal :=
  if (lookupA db.users username).isSome then
    (.error (.err "The username already exists! Aborting!".data), db)
  else
    let new_user := userDefault.set_username username
    match db.source_files with
    | some fs =>
      match lockAllExpect fs with
      | .error e => (.error e, db)
      | .ok (lp, ls, _lg) =>
        match lp.append new_user.display with
        | .error e => (.error e, db)
        | .ok lp =>
          match
            (match new_user.get_shadow with
             | some sh => ls.append sh.value.display
             | none => .ok ls) with
          | .error e =>
            let fs' : FilesState := ⟨FileState.ofGuard lp, fs.shadow, fs.group⟩
            (.error e, { db with source_files := some fs' })
          | .ok ls =>
            let nu : Numbered User := ⟨18446744073709551615, new_user⟩
            let fs' : FilesState := ⟨FileState.ofGuard lp, FileState.ofGuard ls, fs.group⟩
            (.ok nu,
             { source_files := some fs',
               users := insertA db.users username nu,
               groups := db.groups })
    | none =>
      let nu : Numbered User := ⟨18446744073709551615, new_user⟩
      (.ok nu, { db with users := insertA db.users username nu })

/-! ### Supporting lemmas about the string primitives -/

theorem splitCh_ne_nil (sep : Char) (xs : Chars) : splitCh sep xs ≠ [] := by
  cases xs with
  | nil => simp [splitCh]
  | cons c rest => simp only [splitCh]; split <;> simp

theorem joinWith_splitCh (sep : Char) (xs : Chars) :
    joinWith [sep] (splitCh sep xs) = xs := by
  induction xs with
  | nil => rfl
  | cons c rest ih =>
    simp only [splitCh]
    obtain ⟨h, t, hr⟩ : ∃ h t, splitCh sep rest = h :: t := by
      cases hr : splitCh sep rest with
      | nil => exact absurd hr (splitCh_ne_nil sep rest)
      | cons h t => exact ⟨h, t, rfl⟩
    rw [hr] at ih ⊢
    by_cases hc : c = sep
    · subst hc
      simp only [if_pos rfl, joinWith]
      simpa using ih
    · simp only [if_neg hc, List.headD, List.tail]
      cases t with
      | nil => simpa [joinWith] using congrArg (c :: ·) ih
      | cons t0 ts => simpa [joinWith] using congrArg (c :: ·) ih

theorem splitCh_eq_single (sep : Char) (xs : Chars) (h : ∀ c ∈ xs, c ≠ sep) :
    splitCh sep xs = [xs] := by
  induction xs with
  | nil => rfl
  | cons c rest ih =>
    have hc : c ≠ sep := h c (by simp)
    simp only [splitCh, if_neg hc, ih (fun d hd => h d (by simp [hd]))]
    rfl

theorem splitCh_append (sep : Char) (xs ys : Chars) :
    splitCh sep (xs ++ sep :: ys) = splitCh sep xs ++ splitCh sep ys := by
  induction xs with
  | nil => simp [splitCh]
  | cons c rest ih =>
    simp only [List.cons_append, splitCh, List.append_eq]
    by_cases hc : c = sep
    · rw [if_pos hc, if_pos hc, ih]
      rfl
    · obtain ⟨h, t, hr⟩ : ∃ h t, splitCh sep rest = h :: t := by
        cases hr : splitCh sep rest with
        | nil => exact absurd hr (splitCh_ne_nil sep rest)
        | cons h t => exact ⟨h, t, rfl⟩
      rw [if_neg hc, if_neg hc, ih, hr]
      simp

theorem splitCh_append_right (sep : Char) (t : Chars) (ht : ∀ c ∈ t, c ≠ sep) :
    ∀ xs : Chars, splitCh sep (xs ++ t) =
      (splitCh sep xs).dropLast ++ [(splitCh sep xs).getLastD [] ++ t] := by
  intro xs
  induction xs with
  | nil => simp [splitCh, splitCh_eq_single sep t ht]
  | cons c rest ih =>
    obtain ⟨h, t', hr⟩ : ∃ h t', splitCh sep rest = h :: t' := by
      cases hr : splitCh sep rest with
      | nil => exact absurd hr (splitCh_ne_nil sep rest)
      | cons h t' => exact ⟨h, t', rfl⟩
    by_cases hc : c = sep
    · subst hc
      simp only [List.cons_append, splitCh, List.append_eq, if_pos]
      rw [ih, hr]
      cases t' with
      | nil => simp
      | cons t0 ts => simp
    · simp only [List.cons_append, splitCh, List.append_eq, if_neg hc]
      rw [ih, hr]
      cases t' with
      | nil => simp
      | cons t0 ts => simp

theorem rustLines_concat_endsNl (c line : Chars) (hend : c.getLast? = some '\n')
    (hnl : ∀ ch ∈ line, ch ≠ '\n') (hne : line ≠ []) (hcr : line.getLast? ≠ some '\r') :
    rustLines (c ++ line) = rustLines c ++ [line] := by
  obtain ⟨ys, rfl⟩ := List.getLast?_eq_some_iff.mp hend
  have h1 : ys ++ ['\n'] ++ line = ys ++ '\n' :: line := by simp
  have h2 : splitCh '\n' (ys ++ '\n' :: line) = splitCh '\n' ys ++ [line] := by
    rw [splitCh_append, splitCh_eq_single _ _ hnl]
  have h3 : splitCh '\n' (ys ++ ['\n']) = splitCh '\n' ys ++ [[]] := by
    have he : ys ++ ['\n'] = ys ++ '\n' :: ([] : Chars) := rfl
    rw [he, splitCh_append]
    rfl
  simp only [rustLines]
  rw [h1, h2, h3, List.getLast?_concat, List.getLast?_concat]
  rw [if_neg (by simpa using hne), if_pos rfl, List.dropLast_concat, List.map_append]
  simp [if_neg hcr]

theorem rustLines_concat_notNl (c line : Chars) (hc : c ≠ [])
    (hend : c.getLast? ≠ some '\n') (hnl : ∀ ch ∈ line, ch ≠ '\n') (hne : line ≠ [])
    (hcr : line.getLast? ≠ some '\r') :
    rustLines (c ++ '\n' :: line) = rustLines c ++ [line] := by
  obtain ⟨d, hd⟩ : ∃ d, c.getLast? = some d := by
    cases hgl : c.getLast? with
    | none => exact absurd (List.getLast?_eq_none_iff.mp hgl) hc
    | some d => exact ⟨d, rfl⟩
  have hdn : d ≠ '\n' := fun h => hend (h ▸ hd)
  obtain ⟨ys, rfl⟩ := List.getLast?_eq_some_iff.mp hd
  have h2 : splitCh '\n' (ys ++ [d] ++ '\n' :: line)
      = splitCh '\n' (ys ++ [d]) ++ [line] := by
    rw [splitCh_append, splitCh_eq_single _ _ hnl]
  have h4 : splitCh '\n' (ys ++ [d])
      = (splitCh '\n' ys).dropLast ++ [(splitCh '\n' ys).getLastD [] ++ [d]] :=
    splitCh_append_right '\n' [d] (by simpa using hdn) ys
  have h6 : (splitCh '\n' (ys ++ [d])).getLast? ≠ some [] := by
    rw [h4, List.getLast?_concat]
    simp
  simp only [rustLines]
  rw [h2, List.getLast?_concat]
  rw [if_neg (by simpa using hne), if_neg h6, List.map_append]
  simp [if_neg hcr]

/-! ### Supporting lemmas about the association-list map -/

theorem lookupA_updateA {α : Type} (m : List (Chars × α)) (k k' : Chars) (f : α → α) :
    lookupA (updateA m k f) k' =
      if k = k' then (lookupA m k').map f else lookupA m k' := by
  induction m with
  | nil =>
    simp only [lookupA, updateA, Option.map_none']
    split <;> rfl
  | cons hd tl ih =>
    obtain ⟨a, v⟩ := hd
    by_cases hak : a = k
    · subst hak
      by_cases hak' : a = k'
      · subst hak'
        simp [lookupA, updateA]
      · simp [lookupA, updateA, hak']
    · by_cases hak' : a = k'
      · subst hak'
        have hkk : k ≠ a := fun h => hak h.symm
        simp [lookupA, updateA, hak, hkk]
      · simp [lookupA, updateA, hak, hak', ih]

/-! ### Claim C9 - the partial order on `Position` -/

/-- C9 (counterexample): the claim says every comparison involving
`NotInFile` is undefined (`None`), but the source's `(NewToFile, _)`
match arm precedes the `NotInFile` arms, so `NewToFile` compared against
`NotInFile` is defined (`Some(Greater)`). -/
theorem claimC9_counterexample :
    Position.partialCmp .NewToFile .NotInFile ≠ none := by decide

/-- C9 (amended): `At(n)` vs `At(m)` compares the line numbers;
`NewToFile` compares `Greater` against everything (including
`NotInFile`, `NotAssignedYet` and `NewToFile` itself); `At` compares
`Less` against `NewToFile`; the comparison is undefined exactly when the
left side is `NotInFile` or `NotAssignedYet`, or the left side is `At`
and the right side is `NotInFile` or `NotAssignedYet`. -/
theorem claimC9_amended :
    (∀ n m, Position.partialCmp (.At n) (.At m) = some (compare n m)) ∧
    (∀ p, Position.partialCmp .NewToFile p = some .gt) ∧
    (∀ n, Position.partialCmp (.At n) .NewToFile = some .lt) ∧
    (∀ n, Position.partialCmp (.At n) .NotInFile = none) ∧
    (∀ n, Position.partialCmp (.At n) .NotAssignedYet = none) ∧
    (∀ p, Position.partialCmp .NotInFile p = none) ∧
    (∀ p, Position.partialCmp .NotAssignedYet p = none) := by
  refine ⟨fun n m => rfl, fun p => ?_, fun n => rfl, fun n => rfl, fun n => rfl,
    fun p => ?_, fun p => ?_⟩ <;> cases p <;> rfl

/-! ### Claim C10 - append on an empty file -/

/-- C10: `LockedFileGuard::append` on a zero-byte file fails (the
initial `SeekFrom::End(-1)` would seek to a negative offset) and writes
nothing; consequently `new_user` against a database whose passwd table
file is empty returns that error and leaves the database (and all file
contents) unchanged. -/
theorem claimC10_theorem :
    (∀ (cursor : Nat) (snapshot appendee : Chars),
        (LockedFileGuard.mk [] cursor snapshot).append appendee
          = .error (.err "Failed to append to file".data)) ∧
    ((newUser ⟨some (filesNew [] [] []), [], []⟩ "newuser".data)
      = (.error (.err "Failed to append to file".data),
         ⟨some (filesNew [] [] []), [], []⟩)) := by
  constructor
  · intro cursor snapshot appendee
    rfl
  · decide

/-! ### Claim C5 - lock acquisition and the dirty check -/

/-- C5 (counterexample): the claim says an acquisition against a file
whose content changed since the snapshot fails with the dirty-file
error; but `check_if_dirty` compares the **trimmed** content with the
**trimmed** snapshot, so a file whose raw content differs from the
snapshot only by surrounding whitespace (here: snapshot `"a"`, content
`"a\n"` - exactly the state `replace_contents` leaves behind) is
acquired successfully. -/
theorem claimC5_counterexample :
    (TableFile.mk ⟨"a\n".data, "a".data⟩ false).state.content
        ≠ (TableFile.mk ⟨"a\n".data, "a".data⟩ false).state.snapshot ∧
    (lockGuarded (TableFile.mk ⟨"a\n".data, "a".data⟩ false)).1
        = .ok ⟨"a\n".data, 0, "a".data⟩ := by
  constructor
  · decide
  · decide

/-- C5 (amended): with no lock held, acquisition succeeds iff the
**trimmed** file content equals the **trimmed** snapshot: on success the
guard is positioned at offset 0 with the content unread/unwritten, and
after releasing the lock a second acquisition succeeds identically; on a
trimmed mismatch the acquisition fails with the dirty-file error and the
file state is unchanged (no write). -/
theorem claimC5_amended (t : TableFile) (hl : t.locked = false) :
    (rustTrim t.state.snapshot = rustTrim t.state.content →
       lockGuarded t = (.ok ⟨t.state.content, 0, t.state.snapshot⟩, ⟨t.state, true⟩) ∧
       (lockGuarded (releaseGuard (lockGuarded t).2)).1
         = .ok ⟨t.state.content, 0, t.state.snapshot⟩) ∧
    (rustTrim t.state.snapshot ≠ rustTrim t.state.content →
       (lockGuarded t).1
         = .error (.err "The file has been modified by another process. Abort to avoid corruption.".data) ∧
       (lockGuarded t).2.state = t.state) := by
  constructor
  · intro hclean
    simp [lockGuarded, tryToLockFile, hl, lockGuardedFile, hclean, releaseGuard]
  · intro hdirty
    simp [lockGuarded, tryToLockFile, hl, lockGuardedFile, hdirty]

/-- C5 (witness): both branches of the amended claim at concrete
states: clean acquisition of content `"a"` with snapshot `"a"`, and a
dirty failure for content `"b"` against snapshot `"a"`. -/
theorem claimC5_amended_witness :
    (lockGuarded ⟨⟨"a".data, "a".data⟩, false⟩
       = (.ok ⟨"a".data, 0, "a".data⟩, ⟨⟨"a".data, "a".data⟩, true⟩)) ∧
    ((lockGuarded ⟨⟨"b".data, "a".data⟩, false⟩).1
       = .error (.err "The file has been modified by another process. Abort to avoid corruption.".data)) :=
  ⟨((claimC5_amended ⟨⟨"a".data, "a".data⟩, false⟩ rfl).1 (by decide)).1,
   ((claimC5_amended ⟨⟨"b".data, "a".data⟩, false⟩ rfl).2 (by decide)).1⟩

/-! ### Claim C7 - create-user on an existing name -/

/-- C7: `new_user` with a username already present in the map returns
the duplicate-name error before opening or locking any file: the whole
database value - in particular all three table-file contents and
snapshots - is returned unchanged. -/
theorem claimC7_theorem (db : UserDBLocal) (username : Chars)
    (h : (lookupA db.users username).isSome = true) :
    newUser db username
      = (.error (.err "The username already exists! Aborting!".data), db) := by
  simp [newUser, h]

/-- C7 (witness): a database holding user `test` rejects creating
`test` again and is byte-identical afterwards. -/
theorem claimC7_theorem_witness :
    newUser ⟨some (filesNew "p\n".data "s\n".data "g\n".data),
             [("test".data, ⟨0, userDefault.set_username "test".data⟩)], []⟩ "test".data
      = (.error (.err "The username already exists! Aborting!".data),
         ⟨some (filesNew "p\n".data "s\n".data "g\n".data),
          [("test".data, ⟨0, userDefault.set_username "test".data⟩)], []⟩) :=
  claimC7_theorem _ _ (by decide)

/-! ### Claim C6 - a shadow entry without a matching user -/

/-- C6 (counterexample): the claim says a shadow entry whose username
has no passwd entry makes the load fail with a tagged **error value**,
"not a process abort"; but `shadow_to_users` calls
`unwrap_or_else(|| panic!(..))` - the load aborts by panicking, and no
`Err` value is ever produced.  Concretely: an empty passwd table with a
single shadow entry for `test`. -/
theorem claimC6_counterexample :
    importFromStrings [] "test:pw:::::::".data []
        = .error (.panicked "the user test does not exist".data) ∧
    ∀ m, importFromStrings [] "test:pw:::::::".data [] ≠ .error (.err m) := by
  have he : importFromStrings [] "test:pw:::::::".data []
      = .error (.panicked "the user test does not exist".data) := by decide
  exact ⟨he, fun m h => by rw [he] at h; exact absurd h (by simp)⟩

theorem shadowToUsers_missing_panics (entries : List (Numbered Shadow)) :
    ∀ users : List (Chars × Numbered User),
      (∃ e ∈ entries, lookupA users e.value.username = none) →
      ∃ m, shadowToUsers users entries = .error (.panicked m) := by
  induction entries with
  | nil =>
    rintro users ⟨e, he, -⟩
    simp at he
  | cons e0 rest ih =>
    rintro users ⟨e, he, hnone⟩
    rcases List.mem_cons.mp he with rfl | hmem
    · exact ⟨"the user ".data ++ e.value.username ++ " does not exist".data,
        by simp [shadowToUsers, hnone]⟩
    · cases h0 : lookupA users e0.value.username with
      | none =>
        exact ⟨"the user ".data ++ e0.value.username ++ " does not exist".data,
          by simp [shadowToUsers, h0]⟩
      | some u =>
        have hstill : lookupA
            (updateA users e0.value.username
              (fun nu => { nu with value := { nu.value with password := .Shadow e0 } }))
            e.value.username = none := by
          rw [lookupA_updateA]
          split <;> simp [hnone]
        obtain ⟨m, hm⟩ := ih _ ⟨e, hmem, hstill⟩
        refine ⟨m, ?_⟩
        simpa [shadowToUsers, h0] using hm

/-- C6 (amended): whenever all three tables parse and some shadow
entry's username has no user in the passwd-derived map, the load aborts
by **panicking** (naming the missing user); no database value is
returned - but the surfaced outcome is a process abort, not a tagged
error value. -/
theorem claimC6_amended (p s g : Chars)
    (usersV : List (Numbered User)) (entries : List (Numbered Shadow))
    (groupsV : List (Numbered Group))
    (hp : stringTo userFromStr p = .ok usersV)
    (hs : stringTo shadowFromStr s = .ok entries)
    (hg : stringTo groupFromStr g = .ok groupsV)
    (hmiss : ∃ e ∈ entries, lookupA (userVecToHashmap usersV) e.value.username = none) :
    ∃ m, importFromStrings p s g = .error (.panicked m) := by
  obtain ⟨m, hm⟩ := shadowToUsers_missing_panics entries (userVecToHashmap usersV) hmiss
  refine ⟨m, ?_⟩
  simp [importFromStrings, hp, hs, hg, hm, bind, Except.bind]

/-- The parsed value of the shadow line `test:pw:::::::`. -/
def c6Entry : Numbered Shadow :=
  ⟨0, { source := "test:pw:::::::".data, username := "test".data,
        password := "pw".data, last_change := none, earliest_change := none,
        latest_change := none, warn_period := none, deactivated := none,
        deactivated_since := none, extensions := none }⟩

/-- C6 (witness): the amended claim applied to the empty passwd table
and the single shadow line `test:pw:::::::`. -/
theorem claimC6_amended_witness :
    ∃ m, importFromStrings [] "test:pw:::::::".data [] = .error (.panicked m) :=
  claimC6_amended [] "test:pw:::::::".data [] [] [c6Entry] []
    (by decide) (by decide) (by decide)
    ⟨c6Entry, by decide, by decide⟩

/-! ### Claim C1 - exactness of record removal -/

/-- The delete-user scenario refuting C1: user `test` (gid 1002, sole
member of its primary group `tg`) whose shadow line occurs **twice** in
the shadow table. -/
def c1Passwd : Chars := "test:x:1002:1002:com:/home/test:/bin/test\n".data

def c1ShadowLine : Chars := "test:!!:0:0:99999:7:::".data

def c1Shadow : Chars :=
  "test:!!:0:0:99999:7:::\ntest:!!:0:0:99999:7:::\n".data

def c1Groups : Chars := "tg:x:1002:\n".data

/-- C1 (counterexample): the claim says every record removal "fails with
an error unless the count of removed lines is exactly one - removing
zero lines or more than one line is an error, never a silent success".
But the delete-user removals go through `remove_in`, which has no failure
channel: deleting user `test` whose verbatim shadow line is duplicated
in the shadow table removes **both** lines and the call still returns
`Ok`. -/
theorem claimC1_counterexample :
    (rustLines c1Shadow).count c1ShadowLine = 2 ∧
    ((loadFiles (filesNew c1Passwd c1Shadow c1Groups)).toOption.map (fun db =>
        ((deleteUser db "test".data).1.isOk,
         (deleteUser db "test".data).2.source_files.map
           (fun fs => (rustLines fs.shadow.content).count c1ShadowLine))))
      = some (true, some 0) := by
  constructor
  · decide
  · decide

/-- C1 (amended): the two removal mechanisms differ.  The delete
**atoms** remove every line equal to the record's **formatted** line and
fail unless the total line count drops by exactly one (in particular the
spec scenario: deleting group `teste:x:1002:test,teste` from the
one-line file succeeds leaving the empty string and fails with the
"Failed to delete" error on already-empty content).  The delete-user
removals (`remove_in`) split the content at the stored verbatim source
line, trim every fragment and rejoin - they never fail, however many
occurrences (zero included) were removed. -/
theorem claimC1_amended :
    (∀ (u : User) (lp : LockedFileGuard),
        deleteFromPasswd u lp
          = lp.replace_contents (removeIn u.source (lp.content.drop lp.cursor))) ∧
    (∀ g : Group, deleteGroupLine g [] = .error (.err "Failed to delete the group".data)) ∧
    (∀ (g : Group) (content : Chars),
        (deleteGroupLine g content).isOk = true ↔
          (rustLines content).length
            = (rustLines (joinWith ['\n']
                ((rustLines content).filter (fun l => l ≠ g.display)))).length + 1) ∧
    ((groupFromStr "teste:x:1002:test,teste".data).toOption.map (fun gr =>
        (deleteGroupLine gr "teste:x:1002:test,teste\n".data, deleteGroupLine gr [])))
      = some (.ok [], .error (.err "Failed to delete the group".data)) := by
  refine ⟨fun u lp => rfl, fun g => rfl, fun g content => ?_, by decide⟩
  simp only [deleteGroupLine]
  split
  · next h => simp only [Except.isOk, Except.toBool, true_iff]; omega
  · next h => simp only [Except.isOk, Except.toBool, Bool.false_eq_true, false_iff]; omega

/-! ### Claim C2 - group handling of delete-user -/

/-- The failing input for C2: `test` (gid 1002) is the sole member of
its primary group `teste` and additionally a listed member of `others`,
which is `bob`'s primary group. -/
def c2Passwd : Chars :=
  "test:x:1002:1002:com:/home/test:/bin/test\nbob:x:500:500:com:/home/bob:/bin/bash\n".data

def c2Groups : Chars := "others:x:500:test\nteste:x:1002:\n".data

/-- C2 (evaluation at the failing input): deleting `test` must, per the
claim, delete only the emptied primary group `teste` and rewrite the
group file with `others` (now `others:x:500:bob`) still present -
"deleting a user never deletes a group that another user still needs".
The code instead leaves the group file holding a single newline: the
`Member`-edge iteration rewrites the group file (leaving the descriptor
cursor at end-of-file), and the subsequent `Primary`-edge
`delete_from_group` reads the file **from that cursor**, obtains the
empty string, and replaces the file with it.  The in-memory list is
correct (`others` survives, `teste` is gone); the on-disk group table
loses every group.  The repository's own integration test for this path
is marked `#[ignore = "fails for now"]`. -/
theorem claimC2_eval :
    ((loadFiles (filesNew c2Passwd [] c2Groups)).toOption.map (fun db =>
        let r := deleteUser db "test".data
        (r.1.isOk,
         r.2.source_files.map (fun fs => fs.group.content),
         r.2.groups.map (fun g => g.value.groupname),
         r.2.source_files.map (fun fs =>
           decide ("others:x:500:bob".data ∈ rustLines fs.group.content)))))
      = some (true, some ['\n'], ["others".data], some false) := by
  decide

/-! ### Claim C3 - create-user appends -/

theorem append_rustLines (f : LockedFileGuard) (line : Chars)
    (hne : f.content ≠ []) (hl : ∀ ch ∈ line, ch ≠ '\n') (hlne : line ≠ [])
    (hcr : line.getLast? ≠ some '\r') :
    ∃ f', f.append line = .ok f' ∧
      rustLines f'.content = rustLines f.content ++ [line] ∧
      f'.content.getLast? = line.getLast? ∧ f'.snapshot = f.snapshot := by
  have hlen : ¬ f.content.length = 0 := by simpa [List.length_eq_zero] using hne
  by_cases hend : f.content.getLast? = some '\n'
  · refine ⟨⟨f.content ++ line, (f.content ++ line).length, f.snapshot⟩, ?_, ?_, ?_, rfl⟩
    · simp [LockedFileGuard.append, hlen, hend]
    · exact rustLines_concat_endsNl _ _ hend hl hlne hcr
    · simpa using List.getLast?_append_of_ne_nil f.content hlne
  · refine ⟨⟨f.content ++ '\n' :: line, (f.content ++ '\n' :: line).length, f.snapshot⟩,
      ?_, ?_, ?_, rfl⟩
    · simp [LockedFileGuard.append, hlen, hend]
    · exact rustLines_concat_notNl _ _ hne hend hl hlne hcr
    · obtain ⟨c0, cs, rfl⟩ : ∃ c0 cs, line = c0 :: cs := by
        cases line with
        | nil => exact absurd rfl hlne
        | cons c0 cs => exact ⟨c0, cs, rfl⟩
      rw [List.getLast?_append_cons, List.getLast?_cons_cons]

/-- The formatted passwd line of the default user bound to name `n`. -/
theorem userDefault_display (n : Chars) :
    (userDefault.set_username n).display = n ++ ':' :: "x:1001:1001::/:/bin/nologin".data := by
  have htail : joinWith [':']
      [['x'], renderNat 1001, renderNat 1001, [], "/".data, "/bin/nologin".data]
      = "x:1001:1001::/:/bin/nologin".data := by decide
  rw [show (userDefault.set_username n).display
        = n ++ [':'] ++ joinWith [':']
            [['x'], renderNat 1001, renderNat 1001, [], "/".data, "/bin/nologin".data] from rfl,
      htail]
  simp

/-- The default user always carries a shadow entry, renamed with it. -/
theorem userDefault_get_shadow (n : Chars) :
    (userDefault.set_username n).get_shadow
      = some ⟨18446744073709551615, shadowDefault.set_username n⟩ := rfl

/-- The formatted shadow line of the default user bound to name `n`. -/
theorem shadowDefault_display (n : Chars) :
    (shadowDefault.set_username n).display = n ++ ':' :: "!!:0:0:99999:7:::".data := by
  have htail : joinWith [':']
      ["!!".data, showOptionDate (some 0), showOptionDate (some 0),
       showOptionDate (some (99999 * 86400)), showOptionDuration (some 7),
       showOptionDuration none, showOptionDuration none, []]
      = "!!:0:0:99999:7:::".data := by decide
  rw [show (shadowDefault.set_username n).display
        = n ++ [':'] ++ joinWith [':']
            ["!!".data, showOptionDate (some 0), showOptionDate (some 0),
             showOptionDate (some (99999 * 86400)), showOptionDuration (some 7),
             showOptionDuration none, showOptionDuration none, []] from rfl,
      htail]
  simp

/-- The load scenario from §8 for create-user: `testuser` with a
matching shadow line and a primary group. -/
def c3Passwd : Chars := "testuser:x:1001:1001:,,,,:/home/test:/bin/test\n".data

def c3Shadow : Chars := "testuser:!!:18260:0:99999:7:::\n".data

def c3Groups : Chars := "tg:x:1001:\n".data

/-- C3 (counterexample): the claim says each appended line is
"terminated by a newline".  `append` only ensures the **previous**
content ends in a newline before writing, and writes the new line with
no trailing newline: after `new_user("test2")` on the §8 scenario files
the passwd table ends in `'n'` (of `/bin/nologin`) and the shadow table
in `':'` - neither file is newline-terminated. -/
theorem claimC3_counterexample :
    ((loadFiles (filesNew c3Passwd c3Shadow c3Groups)).toOption.map (fun db =>
        let r := newUser db "test2".data
        (r.1.isOk,
         r.2.source_files.map (fun fs =>
           (fs.passwd.content.getLast?, fs.shadow.content.getLast?)))))
      = some (true, some (some 'n', some ':')) := by
  decide

/-- C3 (amended): for a fresh username (without newline characters) on a
database with backing files whose tables are clean (snapshot matches
content), nonempty (see C10) - exactly one line is appended to the user
table and exactly one to the shadow table, every previously existing
line of both files unchanged and the group file untouched; but the
appended line itself is **not** newline-terminated: each file afterwards
ends in the last character of the new line (`append` only guarantees a
newline *separates* it from the previous content). -/
theorem claimC3_amended (db : UserDBLocal) (fs : FilesState) (username : Chars)
    (hfiles : db.source_files = some fs)
    (hfree : lookupA db.users username = none)
    (hpc : rustTrim fs.passwd.snapshot = rustTrim fs.passwd.content)
    (hsc : rustTrim fs.shadow.snapshot = rustTrim fs.shadow.content)
    (hgc : rustTrim fs.group.snapshot = rustTrim fs.group.content)
    (hpne : fs.passwd.content ≠ [])
    (hsne : fs.shadow.content ≠ [])
    (hun : '\n' ∉ username) :
    ∃ nu db' fs', newUser db username = (.ok nu, db') ∧
      db'.source_files = some fs' ∧
      rustLines fs'.passwd.content
        = rustLines fs.passwd.content ++ [username ++ ':' :: "x:1001:1001::/:/bin/nologin".data] ∧
      rustLines fs'.shadow.content
        = rustLines fs.shadow.content ++ [username ++ ':' :: "!!:0:0:99999:7:::".data] ∧
      fs'.group = fs.group ∧
      fs'.passwd.content.getLast? = some 'n' ∧
      fs'.shadow.content.getLast? = some ':' := by
  have hfree' : (lookupA db.users username).isSome = false := by simp [hfree]
  have hlock : lockAllExpect fs
      = .ok (⟨fs.passwd.content, 0, fs.passwd.snapshot⟩,
             ⟨fs.shadow.content, 0, fs.shadow.snapshot⟩,
             ⟨fs.group.content, 0, fs.group.snapshot⟩) := by
    simp [lockAllExpect, lockAllGet, lockGuardedFile, hpc, hsc, hgc, bind, Except.bind,
      pure, Except.pure]
  have huline : ∀ ch ∈ username ++ ':' :: "x:1001:1001::/:/bin/nologin".data, ch ≠ '\n' := by
    intro ch hch
    rcases List.mem_append.mp hch with hmem | hmem
    · exact fun hc => hun (hc ▸ hmem)
    · intro hc
      subst hc
      exact absurd hmem (by decide)
  have hsline : ∀ ch ∈ username ++ ':' :: "!!:0:0:99999:7:::".data, ch ≠ '\n' := by
    intro ch hch
    rcases List.mem_append.mp hch with hmem | hmem
    · exact fun hc => hun (hc ▸ hmem)
    · intro hc
      subst hc
      exact absurd hmem (by decide)
  have hulast : (username ++ ':' :: "x:1001:1001::/:/bin/nologin".data).getLast? = some 'n' := by
    rw [List.getLast?_append_cons]
    decide
  have hslast : (username ++ ':' :: "!!:0:0:99999:7:::".data).getLast? = some ':' := by
    rw [List.getLast?_append_cons]
    decide
  obtain ⟨lp', hap, hlinesp, hlastp, hsnapp⟩ :=
    append_rustLines ⟨fs.passwd.content, 0, fs.passwd.snapshot⟩
      (username ++ ':' :: "x:1001:1001::/:/bin/nologin".data)
      hpne huline (by simp) (by rw [hulast]; decide)
  obtain ⟨ls', has, hliness, hlasts, hsnaps⟩ :=
    append_rustLines ⟨fs.shadow.content, 0, fs.shadow.snapshot⟩
      (username ++ ':' :: "!!:0:0:99999:7:::".data)
      hsne hsline (by simp) (by rw [hslast]; decide)
  refine ⟨⟨18446744073709551615, userDefault.set_username username⟩,
      ⟨some ⟨FileState.ofGuard lp', FileState.ofGuard ls', fs.group⟩,
       insertA db.users username ⟨18446744073709551615, userDefault.set_username username⟩,
       db.groups⟩,
      ⟨FileState.ofGuard lp', FileState.ofGuard ls', fs.group⟩, ?_, rfl, ?_, ?_, rfl, ?_, ?_⟩
  · simp only [newUser, hfree', Bool.false_eq_true, if_false, hfiles, hlock,
      userDefault_get_shadow, userDefault_display, shadowDefault_display, hap, has]
  · simpa [FileState.ofGuard] using hlinesp
  · simpa [FileState.ofGuard] using hliness
  · simp [FileState.ofGuard, hlastp, hulast]
  · simp [FileState.ofGuard, hlasts, hslast]

/-- C3 (witness): the amended claim at the §8 scenario files, freshly
loaded (so snapshots equal trimmed contents), creating `test2`. -/
theorem claimC3_amended_witness :
    ∃ nu db' fs',
      newUser ⟨some (filesNew c3Passwd c3Shadow c3Groups),
               [("testuser".data, ⟨0, userDefault.set_username "testuser".data⟩)], []⟩
          "test2".data
        = (.ok nu, db') ∧
      db'.source_files = some fs' ∧
      rustLines fs'.passwd.content
        = rustLines c3Passwd ++ ["test2".data ++ ':' :: "x:1001:1001::/:/bin/nologin".data] ∧
      rustLines fs'.shadow.content
        = rustLines c3Shadow ++ ["test2".data ++ ':' :: "!!:0:0:99999:7:::".data] ∧
      fs'.group = (filesNew c3Passwd c3Shadow c3Groups).group ∧
      fs'.passwd.content.getLast? = some 'n' ∧
      fs'.shadow.content.getLast? = some ':' :=
  claimC3_amended _ (filesNew c3Passwd c3Shadow c3Groups) "test2".data rfl
    (by decide) (by decide) (by decide) (by decide) (by decide) (by decide) (by decide)

/-! ### Claim C4 - parse/format round trips -/

/-- An optional numeric field in canonical form: empty, or the exact
decimal rendering (`i64` `Display`) of the value it parses to. -/
def intFieldCanonical (f : Chars) : Prop :=
  f = [] ∨ ∃ d : Int, rustParseI64 f = some d ∧ renderInt d = f

/-- An optional `u64` field in canonical form. -/
def natFieldCanonical (f : Chars) : Prop :=
  f = [] ∨ ∃ n : Nat, rustParseU64 f = some n ∧ renderNat n = f

theorem dateSinceEpoch_roundtrip (f : Chars) (hc : intFieldCanonical f) :
    ∃ o, dateSinceEpoch f = .ok o ∧ showOptionDate o = f := by
  rcases hc with rfl | ⟨d, hp, hr⟩
  · exact ⟨none, rfl, rfl⟩
  · have hne : f ≠ [] := by rintro rfl; simp [rustParseI64, parseDigits] at hp
    refine ⟨some (d * 86400), by simp [dateSinceEpoch, hne, hp], ?_⟩
    simp only [showOptionDate]
    rw [Int.mul_tdiv_cancel d (by norm_num : (86400 : Int) ≠ 0), hr]

theorem durationForDays_roundtrip (f : Chars) (hc : intFieldCanonical f) :
    ∃ o, durationForDays f = .ok o ∧ showOptionDuration o = f := by
  rcases hc with rfl | ⟨d, hp, hr⟩
  · exact ⟨none, rfl, rfl⟩
  · have hne : f ≠ [] := by rintro rfl; simp [rustParseI64, parseDigits] at hp
    exact ⟨some d, by simp [durationForDays, hne, hp], by simpa [showOptionDuration] using hr⟩

theorem parseExtensions_roundtrip (f : Chars) (hc : natFieldCanonical f) :
    ∃ o, parseExtensions f = .ok o ∧
      (match o with | none => [] | some n => renderNat n) = f := by
  rcases hc with rfl | ⟨n, hp, hr⟩
  · exact ⟨none, rfl, rfl⟩
  · have hne : f ≠ [] := by rintro rfl; simp [rustParseU64, parseDigits] at hp
    exact ⟨some n, by simp [parseExtensions, hne, hp], hr⟩

theorem exceptBind_ok {α β : Type} {x : Except RustAbort α} {f : α → Except RustAbort β}
    {b : β} (h : x >>= f = .ok b) : ∃ a, x = .ok a ∧ f a = .ok b := by
  cases x with
  | ok a => exact ⟨a, rfl, h⟩
  | error e => simp [Bind.bind, Except.bind] at h

theorem usernameTryFrom_ok {xs v : Chars} (h : usernameTryFrom xs = .ok v) : v = xs := by
  unfold usernameTryFrom at h
  split at h
  · simp at h
  · exact (Except.ok.inj h).symm

theorem encryptedPasswordTryFrom_ok {xs v : Chars}
    (h : encryptedPasswordTryFrom xs = .ok v) : v = xs :=
  (Except.ok.inj h).symm

theorem verbatimTryFrom_ok {xs v : Chars} (h : verbatimTryFrom xs = .ok v) : v = xs :=
  (Except.ok.inj h).symm

theorem u32TryFrom_ok {xs : Chars} {v : Nat} (h : u32TryFrom xs = .ok v) :
    renderNat v = xs := by
  unfold u32TryFrom at h
  split at h
  · next w hw =>
    split at h
    · next hc =>
      obtain rfl := Except.ok.inj h
      exact hc.1
    · simp at h
  · simp at h

theorem user_roundtrip (L : Chars) (u : User) (h : userFromStr L = .ok u) :
    u.display = L := by
  rw [userFromStr] at h
  split at h
  · next e0 e1 e2 e3 e4 e5 e6 heq =>
    obtain ⟨un, hun, h⟩ := exceptBind_ok h
    obtain ⟨pw, hpw, h⟩ := exceptBind_ok h
    obtain ⟨uid, huid, h⟩ := exceptBind_ok h
    obtain ⟨gid, hgid, h⟩ := exceptBind_ok h
    obtain ⟨gec, hgec, h⟩ := exceptBind_ok h
    obtain ⟨hom, hhom, h⟩ := exceptBind_ok h
    obtain ⟨shl, hshl, h⟩ := exceptBind_ok h
    obtain rfl := (Except.ok.inj h).symm
    simp only [User.display, Password.display]
    rw [usernameTryFrom_ok hun, encryptedPasswordTryFrom_ok hpw, u32TryFrom_ok huid,
      u32TryFrom_ok hgid, verbatimTryFrom_ok hgec, verbatimTryFrom_ok hhom,
      verbatimTryFrom_ok hshl, ← joinWith_splitCh ':' L, heq]
  · simp at h

theorem group_roundtrip (L : Chars) (g : Group) (h : groupFromStr L = .ok g) :
    g.display = L := by
  rw [groupFromStr] at h
  split at h
  · next e0 e1 e2 e3 heq =>
    obtain ⟨gn, hgn, h⟩ := exceptBind_ok h
    obtain ⟨pw, hpw, h⟩ := exceptBind_ok h
    obtain ⟨gid, hgid, h⟩ := exceptBind_ok h
    obtain rfl := (Except.ok.inj h).symm
    simp only [Group.display]
    rw [usernameTryFrom_ok hgn, encryptedPasswordTryFrom_ok hpw, u32TryFrom_ok hgid,
      ← joinWith_splitCh ':' L, heq]
    by_cases he3 : e3 = []
    · subst he3
      rfl
    · rw [if_neg he3, joinWith_splitCh]
  · simp at h

theorem shadow_roundtrip (L f0 f1 f2 f3 f4 f5 f6 f7 f8 : Chars) (s : Shadow)
    (heq : splitCh ':' L = [f0, f1, f2, f3, f4, f5, f6, f7, f8])
    (hc2 : intFieldCanonical f2) (hc3 : intFieldCanonical f3)
    (hc4 : intFieldCanonical f4) (hc5 : intFieldCanonical f5)
    (hc6 : intFieldCanonical f6) (hc7 : intFieldCanonical f7)
    (hc8 : natFieldCanonical f8)
    (h : shadowFromStr L = .ok s) :
    s.display = L := by
  rw [shadowFromStr] at h
  split at h
  · next e0 e1 e2 e3 e4 e5 e6 e7 e8 heq2 =>
    have hsame := heq.symm.trans heq2
    simp only [List.cons.injEq, and_true] at hsame
    obtain ⟨rfl, rfl, rfl, rfl, rfl, rfl, rfl, rfl, rfl⟩ := hsame
    obtain ⟨o2', ho2', hd2⟩ := dateSinceEpoch_roundtrip f2 hc2
    obtain ⟨o3', ho3', hd3⟩ := dateSinceEpoch_roundtrip f3 hc3
    obtain ⟨o4', ho4', hd4⟩ := dateSinceEpoch_roundtrip f4 hc4
    obtain ⟨o5', ho5', hd5⟩ := durationForDays_roundtrip f5 hc5
    obtain ⟨o6', ho6', hd6⟩ := durationForDays_roundtrip f6 hc6
    obtain ⟨o7', ho7', hd7⟩ := durationForDays_roundtrip f7 hc7
    obtain ⟨o8', ho8', hd8⟩ := parseExtensions_roundtrip f8 hc8
    obtain ⟨un, hun, h⟩ := exceptBind_ok h
    obtain ⟨pw, hpw, h⟩ := exceptBind_ok h
    obtain ⟨o2, ho2, h⟩ := exceptBind_ok h
    obtain ⟨o3, ho3, h⟩ := exceptBind_ok h
    obtain ⟨o4, ho4, h⟩ := exceptBind_ok h
    obtain ⟨o5, ho5, h⟩ := exceptBind_ok h
    obtain ⟨o6, ho6, h⟩ := exceptBind_ok h
    obtain ⟨o7, ho7, h⟩ := exceptBind_ok h
    obtain ⟨o8, ho8, h⟩ := exceptBind_ok h
    obtain rfl := (Except.ok.inj h).symm
    obtain rfl := Except.ok.inj (ho2.symm.trans ho2')
    obtain rfl := Except.ok.inj (ho3.symm.trans ho3')
    obtain rfl := Except.ok.inj (ho4.symm.trans ho4')
    obtain rfl := Except.ok.inj (ho5.symm.trans ho5')
    obtain rfl := Except.ok.inj (ho6.symm.trans ho6')
    obtain rfl := Except.ok.inj (ho7.symm.trans ho7')
    obtain rfl := Except.ok.inj (ho8.symm.trans ho8')
    simp only [Shadow.display]
    rw [usernameTryFrom_ok hun, encryptedPasswordTryFrom_ok hpw,
      hd2, hd3, hd4, hd5, hd6, hd7, hd8, ← joinWith_splitCh ':' L, heq]
  · simp at h

/-- C4 (counterexample): `"tst:pw:007::::::"` is accepted by the shadow
parser (`"007".parse::<i64>()` succeeds), but formatting the parsed
record yields `"tst:pw:7::::::"` - the zero-padded day count is
re-rendered canonically, so `format(parse(L)) ≠ L`. -/
theorem claimC4_counterexample :
    ((shadowFromStr "tst:pw:007::::::".data).toOption.map Shadow.display)
        = some "tst:pw:7::::::".data ∧
    "tst:pw:7::::::".data ≠ "tst:pw:007::::::".data := by
  constructor <;> decide

/-- C4 (amended): `format(parse(L)) = L` holds for every well-formed
User line (7 fields) and Group line; for Shadow lines it holds exactly
when the optional numeric fields are canonically rendered (no leading
zeros or plus signs) - a parsed non-canonical numeric field is
re-rendered canonically, so formatting normalizes rather than preserves
such lines.  (The leaf field validators absent from the sources are
modelled per the spec as value parsers that reproduce their field;
`Uid`/`Gid` accept canonical 32-bit decimals.) -/
theorem claimC4_amended :
    (∀ (L : Chars) (u : User), userFromStr L = .ok u → u.display = L) ∧
    (∀ (L : Chars) (g : Group), groupFromStr L = .ok g → g.display = L) ∧
    (∀ (L f0 f1 f2 f3 f4 f5 f6 f7 f8 : Chars) (s : Shadow),
        splitCh ':' L = [f0, f1, f2, f3, f4, f5, f6, f7, f8] →
        intFieldCanonical f2 → intFieldCanonical f3 → intFieldCanonical f4 →
        intFieldCanonical f5 → intFieldCanonical f6 → intFieldCanonical f7 →
        natFieldCanonical f8 →
        shadowFromStr L = .ok s → s.display = L) :=
  ⟨user_roundtrip, group_roundtrip,
   fun L f0 f1 f2 f3 f4 f5 f6 f7 f8 s heq hc2 hc3 hc4 hc5 hc6 hc7 hc8 h =>
     shadow_roundtrip L f0 f1 f2 f3 f4 f5 f6 f7 f8 s heq hc2 hc3 hc4 hc5 hc6 hc7 hc8 h⟩

/-- C4 (witness): the amended round trips at concrete lines - a passwd
line, a group line, and the canonical shadow line of the source's own
`test_parse_and_back_identity` shape. -/
theorem claimC4_amended_witness :
    (userFromStr "tst:pw:1:2:com:/h:/s".data).toOption.map User.display
        = some "tst:pw:1:2:com:/h:/s".data ∧
    (groupFromStr "grp:x:5:a,b".data).toOption.map Group.display
        = some "grp:x:5:a,b".data ∧
    (shadowFromStr "tst:pw:18260:0:99999:7:::".data).toOption.map Shadow.display
        = some "tst:pw:18260:0:99999:7:::".data := by
  refine ⟨?_, ?_, ?_⟩
  · have h : userFromStr "tst:pw:1:2:com:/h:/s".data
        = .ok { source := "tst:pw:1:2:com:/h:/s".data, pos := .NotAssignedYet,
                username := "tst".data, password := .Encrypted "pw".data, uid := 1,
                gid := 2, gecos := "com".data, home_dir := "/h".data,
                shell_path := "/s".data, groups := [] } := by decide
    rw [h]
    simpa [Except.toOption] using claimC4_amended.1 _ _ h
  · have h : groupFromStr "grp:x:5:a,b".data
        = .ok { source := "grp:x:5:a,b".data, groupname := "grp".data,
                password := "x".data, gid := 5, members := ["a".data, "b".data] } := by
      decide
    rw [h]
    simpa [Except.toOption] using claimC4_amended.2.1 _ _ h
  · have h : shadowFromStr "tst:pw:18260:0:99999:7:::".data
        = .ok { source := "tst:pw:18260:0:99999:7:::".data, username := "tst".data,
                password := "pw".data, last_change := some (18260 * 86400),
                earliest_change := some 0, latest_change := some (99999 * 86400),
                warn_period := some 7, deactivated := none, deactivated_since := none,
                extensions := none } := by decide
    rw [h]
    simpa [Except.toOption] using claimC4_amended.2.2 "tst:pw:18260:0:99999:7:::".data
      "tst".data "pw".data "18260".data "0".data "99999".data "7".data [] [] []
      _ (by decide)
      (Or.inr ⟨18260, by decide, by decide⟩) (Or.inr ⟨0, by decide, by decide⟩)
      (Or.inr ⟨99999, by decide, by decide⟩) (Or.inr ⟨7, by decide, by decide⟩)
      (Or.inl rfl) (Or.inl rfl) (Or.inl rfl) h

/-! ### Claim C8 - the cross-reference built by `groups_to_users` -/

/-- The `Member` edges user `k` accumulates from the member pass over
groups numbered from `off`: one edge per occurrence of `k` in each
group's member list. -/
def memberEdgesFrom (off : Nat) (k : Chars) : List (Numbered Group) → List (MembershipKind × Nat)
  | [] => []
  | g :: gs => List.replicate (g.value.members.count k) (.Member, off)
      ++ memberEdgesFrom (off + 1) k gs

theorem foldl_addMemberStep (i : Nat) (names : List Chars) :
    ∀ (users : List (Chars × Numbered User)) (k : Chars),
      lookupA (names.foldl (addMemberStep i) users) k
        = (lookupA users k).map (fun nu =>
            { nu with value := { nu.value with
                groups := nu.value.groups ++ List.replicate (names.count k) (.Member, i) } }) := by
  induction names with
  | nil =>
    intro users k
    cases h : lookupA users k <;> simp [h]
  | cons name rest ih =>
    intro users k
    simp only [List.foldl_cons]
    rw [ih]
    by_cases hnk : name = k
    · subst hnk
      cases h : lookupA users name with
      | none => simp [addMemberStep, h]
      | some nu =>
        simp only [addMemberStep, h, Option.isSome_some, if_pos, lookupA_updateA, if_pos rfl]
        simp [h, User.add_group, List.count_cons, List.replicate_succ, List.append_assoc]
    · by_cases hn : (lookupA users name).isSome
      · simp only [addMemberStep, if_pos hn, lookupA_updateA, if_neg hnk]
        cases h : lookupA users k <;>
          simp [h, List.count_cons, Ne.symm hnk]
      · simp only [addMemberStep, if_neg hn]
        cases h : lookupA users k <;>
          simp [h, List.count_cons, Ne.symm hnk]

theorem foldl_memberGroups (gs : List (Numbered Group)) :
    ∀ (off : Nat) (users : List (Chars × Numbered User)) (k : Chars),
      lookupA ((List.enumFrom off gs).foldl
          (fun us ig => ig.2.value.members.foldl (addMemberStep ig.1) us) users) k
        = (lookupA users k).map (fun nu =>
            { nu with value := { nu.value with
                groups := nu.value.groups ++ memberEdgesFrom off k gs } }) := by
  induction gs with
  | nil =>
    intro off users k
    cases h : lookupA users k <;> simp [h, memberEdgesFrom, List.enumFrom]
  | cons g rest ih =>
    intro off users k
    simp only [List.enumFrom, List.foldl_cons]
    rw [ih, foldl_addMemberStep]
    cases h : lookupA users k <;> simp [h, memberEdgesFrom, List.append_assoc]

theorem memberPass_lookup (users : List (Chars × Numbered User))
    (groups : List (Numbered Group)) (k : Chars) :
    lookupA (memberPass users groups) k
      = (lookupA users k).map (fun nu =>
          { nu with value := { nu.value with
              groups := nu.value.groups ++ memberEdgesFrom 0 k groups } }) :=
  foldl_memberGroups groups 0 users k

theorem mem_memberEdgesFrom (k : Chars) (j : Nat) (gs : List (Numbered Group)) :
    ∀ off : Nat,
      ((MembershipKind.Member, j) ∈ memberEdgesFrom off k gs
        ↔ ∃ g, gs[j - off]? = some g ∧ k ∈ g.value.members ∧ off ≤ j) := by
  induction gs with
  | nil => intro off; simp [memberEdgesFrom]
  | cons g rest ih =>
    intro off
    simp only [memberEdgesFrom, List.mem_append, List.mem_replicate, ih]
    constructor
    · rintro (⟨hcount, heq⟩ | ⟨g', hg', hk, hle⟩)
      · obtain ⟨-, h2⟩ := Prod.mk.inj heq
        subst h2
        refine ⟨g, by simp, ?_, le_refl _⟩
        exact List.count_pos_iff.mp (Nat.pos_of_ne_zero hcount)
      · refine ⟨g', ?_, hk, by omega⟩
        have harith : j - off = (j - (off + 1)) + 1 := by omega
        rw [harith]
        simpa using hg'
    · rintro ⟨g', hg', hk, hle⟩
      by_cases hj : j = off
      · subst hj
        simp only [Nat.sub_self] at hg'
        simp only [List.getElem?_cons_zero] at hg'
        obtain rfl := Option.some.inj hg'
        exact Or.inl ⟨Nat.pos_iff_ne_zero.mp (List.count_pos_iff.mpr hk), rfl⟩
      · refine Or.inr ⟨g', ?_, hk, by omega⟩
        have harith : j - off = (j - (off + 1)) + 1 := by omega
        rw [harith] at hg'
        simpa using hg'

theorem kind_memberEdgesFrom (k : Chars) (gs : List (Numbered Group)) :
    ∀ off : Nat, ∀ e ∈ memberEdgesFrom off k gs, e.1 = MembershipKind.Member := by
  induction gs with
  | nil => intro off e he; simp [memberEdgesFrom] at he
  | cons g rest ih =>
    intro off e he
    rcases List.mem_append.mp he with hm | hm
    · obtain ⟨-, rfl⟩ := List.mem_replicate.mp hm
      rfl
    · exact ih (off + 1) e hm

theorem keys_updateA {α : Type} (m : List (Chars × α)) (k : Chars) (f : α → α) :
    (updateA m k f).map Prod.fst = m.map Prod.fst := by
  induction m with
  | nil => rfl
  | cons hd tl ih =>
    obtain ⟨a, v⟩ := hd
    by_cases hak : a = k <;> simp [updateA, hak, ih]

theorem lookupA_mem_keys {α : Type} (m : List (Chars × α)) (k : Chars) (v : α)
    (h : lookupA m k = some v) : k ∈ m.map Prod.fst := by
  induction m with
  | nil => exact absurd h (by simp [lookupA])
  | cons hd tl ih =>
    obtain ⟨a, w⟩ := hd
    by_cases hak : a = k
    · subst hak
      exact List.mem_cons.mpr (Or.inl rfl)
    · simp only [lookupA, if_neg hak] at h
      exact List.mem_cons.mpr (Or.inr (ih h))

theorem getElem?_modifyIdx {α : Type} (l : List α) :
    ∀ (j i : Nat) (f : α → α),
      (modifyIdx l j f)[i]? = if i = j then (l[i]?).map f else l[i]? := by
  induction l with
  | nil => intro j i f; simp [modifyIdx]
  | cons x xs ih =>
    intro j i f
    cases j with
    | zero =>
      cases i with
      | zero => simp [modifyIdx]
      | succ i' => simp [modifyIdx]
    | succ j' =>
      cases i with
      | zero => simp [modifyIdx]
      | succ i' => simpa [modifyIdx] using ih j' i' f

theorem map_modifyIdx {α β : Type} (g : α → β) (l : List α) :
    ∀ (j : Nat) (f : α → α), (∀ x, g (f x) = g x) →
      (modifyIdx l j f).map g = l.map g := by
  induction l with
  | nil => intro j f hf; rfl
  | cons x xs ih =>
    intro j f hf
    cases j with
    | zero => simp [modifyIdx, hf]
    | succ j' => simp [modifyIdx, ih j' f hf]

theorem length_modifyIdx {α : Type} (l : List α) :
    ∀ (j : Nat) (f : α → α), (modifyIdx l j f).length = l.length := by
  induction l with
  | nil => intro j f; rfl
  | cons x xs ih =>
    intro j f
    cases j with
    | zero => simp [modifyIdx]
    | succ j' => simp [modifyIdx, ih j' f]

theorem mem_enumFrom_getElem? (gs : List (Numbered Group)) :
    ∀ (off i : Nat) (a : Numbered Group),
      (i, a) ∈ List.enumFrom off gs → off ≤ i ∧ gs[i - off]? = some a := by
  induction gs with
  | nil => intro off i a h; simp [List.enumFrom] at h
  | cons g rest ih =>
    intro off i a h
    simp only [List.enumFrom, List.mem_cons] at h
    rcases h with heq | hmem
    · obtain ⟨h1, h2⟩ := Prod.mk.inj heq
      subst h1
      subst h2
      simp
    · obtain ⟨hle, hget⟩ := ih (off + 1) i a hmem
      refine ⟨by omega, ?_⟩
      have harith : i - off = (i - (off + 1)) + 1 := by omega
      rw [harith]
      simpa using hget

theorem keys_primaryStep (st : List (Chars × Numbered User) × List (Numbered Group))
    (k' : Chars) : (primaryStep st k').1.map Prod.fst = st.1.map Prod.fst := by
  unfold primaryStep
  split
  · rfl
  · split
    · exact keys_updateA ..
    · rfl

theorem gids_primaryStep (st : List (Chars × Numbered User) × List (Numbered Group))
    (k' : Chars) :
    (primaryStep st k').2.map (fun g => g.value.gid) = st.2.map (fun g => g.value.gid) := by
  unfold primaryStep
  split
  · rfl
  · split
    · exact map_modifyIdx _ _ _ _ (fun x => rfl)
    · rfl

theorem lookup_primaryStep_ne (st : List (Chars × Numbered User) × List (Numbered Group))
    (k' k : Chars) (hne : k' ≠ k) :
    lookupA (primaryStep st k').1 k = lookupA st.1 k := by
  unfold primaryStep
  split
  · rfl
  · split
    · rw [lookupA_updateA, if_neg hne]
    · rfl

theorem mem_primaryStep (st : List (Chars × Numbered User) × List (Numbered Group))
    (k' : Chars) (i : Nat) (g : Numbered Group) (x : Chars)
    (hget : st.2[i]? = some g) (hmem : x ∈ g.value.members) :
    ∃ g', (primaryStep st k').2[i]? = some g' ∧ x ∈ g'.value.members := by
  unfold primaryStep
  split
  · exact ⟨g, hget, hmem⟩
  · split
    · next nu hlk ig hgl =>
      rw [getElem?_modifyIdx]
      by_cases hij : i = ig.1
      · subst hij
        rw [if_pos rfl, hget]
        exact ⟨_, rfl, by simp [Group.append_user, hmem]⟩
      · rw [if_neg hij]
        exact ⟨g, hget, hmem⟩
    · exact ⟨g, hget, hmem⟩

theorem keys_pass2fold (ks : List Chars) :
    ∀ st : List (Chars × Numbered User) × List (Numbered Group),
      (ks.foldl primaryStep st).1.map Prod.fst = st.1.map Prod.fst := by
  induction ks with
  | nil => intro st; rfl
  | cons k0 rest ih =>
    intro st
    simp only [List.foldl_cons]
    rw [ih, keys_primaryStep]

theorem lookup_pass2fold_notMem (ks : List Chars) :
    ∀ (st : List (Chars × Numbered User) × List (Numbered Group)) (k : Chars),
      k ∉ ks → lookupA (ks.foldl primaryStep st).1 k = lookupA st.1 k := by
  induction ks with
  | nil => intro st k _; rfl
  | cons k0 rest ih =>
    intro st k hk
    simp only [List.mem_cons, not_or] at hk
    simp only [List.foldl_cons]
    rw [ih _ _ hk.2, lookup_primaryStep_ne _ _ _ (fun h => hk.1 h.symm)]

theorem mem_pass2fold (ks : List Chars) :
    ∀ (st : List (Chars × Numbered User) × List (Numbered Group)) (i : Nat)
      (g : Numbered Group) (x : Chars),
      st.2[i]? = some g → x ∈ g.value.members →
      ∃ g', (ks.foldl primaryStep st).2[i]? = some g' ∧ x ∈ g'.value.members := by
  induction ks with
  | nil => intro st i g x hget hmem; exact ⟨g, hget, hmem⟩
  | cons k0 rest ih =>
    intro st i g x hget hmem
    simp only [List.foldl_cons]
    obtain ⟨g', hget', hmem'⟩ := mem_primaryStep st k0 i g x hget hmem
    exact ih _ i g' x hget' hmem'

theorem filterIdx_eq_of_gids (gid0 : Nat) :
    ∀ (gs gs' : List (Numbered Group)),
      gs.map (fun g => g.value.gid) = gs'.map (fun g => g.value.gid) →
      ∀ off : Nat,
        ((List.enumFrom off gs).filter (fun p => p.2.value.gid = gid0)).map Prod.fst
          = ((List.enumFrom off gs').filter (fun p => p.2.value.gid = gid0)).map Prod.fst := by
  intro gs
  induction gs with
  | nil =>
    intro gs' h off
    cases gs' with
    | nil => rfl
    | cons g' rest' => simp at h
  | cons g rest ih =>
    intro gs' h off
    cases gs' with
    | nil => simp at h
    | cons g' rest' =>
      simp only [List.map_cons, List.cons.injEq] at h
      obtain ⟨hgid, htl⟩ := h
      simp only [List.enumFrom, List.filter_cons]
      by_cases hm : g.value.gid = gid0
      · rw [if_pos (by simpa using hm), if_pos (by simp [← hgid, hm])]
        simp [ih rest' htl (off + 1)]
      · rw [if_neg (by simpa using hm), if_neg (by simp [← hgid, hm])]
        exact ih rest' htl (off + 1)

theorem enum_eq_enumFrom {α : Type} (l : List α) : l.enum = List.enumFrom 0 l := rfl

theorem pass2fold_spec (ks : List Chars) :
    ∀ (st : List (Chars × Numbered User) × List (Numbered Group)) (k : Chars)
      (nu : Numbered User),
      k ∈ ks → ks.Nodup → lookupA st.1 k = some nu →
      ∃ nu', lookupA (ks.foldl primaryStep st).1 k = some nu' ∧
        nu'.value.username = nu.value.username ∧
        nu'.value.gid = nu.value.gid ∧
        (∀ ig, st.2.enum.filter (fun p => p.2.value.gid = nu.value.gid) = [ig] →
            nu'.value.groups = nu.value.groups ++ [(.Primary, ig.1)] ∧
            ∃ g', (ks.foldl primaryStep st).2[ig.1]? = some g' ∧
              nu.value.username ∈ g'.value.members) ∧
        ((st.2.enum.filter (fun p => p.2.value.gid = nu.value.gid)).length ≠ 1 →
            nu'.value.groups = nu.value.groups) := by
  induction ks with
  | nil =>
    intro st k nu hk
    exact absurd hk (List.not_mem_nil k)
  | cons k0 rest ih =>
    intro st k nu hk hnd hlk
    obtain ⟨hk0nd, hrestnd⟩ := List.nodup_cons.mp hnd
    simp only [List.foldl_cons]
    by_cases hkk : k = k0
    · subst hkk
      cases hgl : st.2.enum.filter (fun p => p.2.value.gid = nu.value.gid) with
      | nil =>
        have hstep : primaryStep st k = st := by
          simp only [primaryStep, hlk, hgl]
        rw [hstep]
        refine ⟨nu, ?_, rfl, rfl, ?_, fun _ => rfl⟩
        · rw [lookup_pass2fold_notMem rest st k hk0nd, hlk]
        · intro ig hig
          simp at hig
      | cons ig tl =>
        cases tl with
        | nil =>
          have hstep : primaryStep st k =
              (updateA st.1 k
                 (fun nu2 => { nu2 with value := nu2.value.add_group .Primary ig.1 }),
               modifyIdx st.2 ig.1
                 (fun ng => { ng with value := ng.value.append_user nu.value.username })) := by
            simp only [primaryStep, hlk, hgl]
          have higmem : ig ∈ st.2.enum :=
            List.mem_of_mem_filter (by rw [hgl]; exact List.mem_singleton.mpr rfl)
          have hgget : st.2[ig.1]? = some ig.2 := by
            obtain ⟨-, hget⟩ := mem_enumFrom_getElem? st.2 0 ig.1 ig.2
              (by rw [← enum_eq_enumFrom]; exact higmem)
            simpa using hget
          have hget' : (primaryStep st k).2[ig.1]?
              = some { ig.2 with value := ig.2.value.append_user nu.value.username } := by
            rw [hstep]
            simp [getElem?_modifyIdx, hgget]
          have hmem' : nu.value.username
              ∈ ({ ig.2 with value := ig.2.value.append_user nu.value.username }
                 : Numbered Group).value.members := by
            simp [Group.append_user]
          obtain ⟨g', hg', hmemg⟩ :=
            mem_pass2fold rest (primaryStep st k) ig.1 _ _ hget' hmem'
          have hlk' : lookupA (primaryStep st k).1 k
              = some { nu with value := nu.value.add_group .Primary ig.1 } := by
            rw [hstep]
            simp [lookupA_updateA, hlk]
          refine ⟨{ nu with value := nu.value.add_group .Primary ig.1 }, ?_, rfl, rfl, ?_, ?_⟩
          · rw [lookup_pass2fold_notMem rest _ k hk0nd, hlk']
          · intro ig0 hig0
            obtain ⟨h1, -⟩ := List.cons.inj hig0
            subst h1
            exact ⟨rfl, g', hg', hmemg⟩
          · intro hlen
            simp at hlen
        | cons ig2 tl2 =>
          have hstep : primaryStep st k = st := by
            simp only [primaryStep, hlk, hgl]
          rw [hstep]
          refine ⟨nu, ?_, rfl, rfl, ?_, fun _ => rfl⟩
          · rw [lookup_pass2fold_notMem rest st k hk0nd, hlk]
          · intro ig0 hig0
            simp at hig0
    · have hne : k0 ≠ k := fun h => hkk h.symm
      have hlk' : lookupA (primaryStep st k0).1 k = some nu :=
        (lookup_primaryStep_ne st k0 k hne).trans hlk
      have hk' : k ∈ rest := by
        rcases List.mem_cons.mp hk with h | h
        · exact absurd h hkk
        · exact h
      obtain ⟨nu', hnu', huser, hgid, hsing, hnon⟩ :=
        ih (primaryStep st k0) k nu hk' hrestnd hlk'
      have hgids := gids_primaryStep st k0
      have hmapeq := filterIdx_eq_of_gids nu.value.gid (primaryStep st k0).2 st.2 hgids 0
      rw [← enum_eq_enumFrom, ← enum_eq_enumFrom] at hmapeq
      refine ⟨nu', hnu', huser, hgid, ?_, ?_⟩
      · intro ig hig
        rw [hig] at hmapeq
        cases hF : (primaryStep st k0).2.enum.filter
            (fun p => p.2.value.gid = nu.value.gid) with
        | nil =>
          rw [hF] at hmapeq
          simp at hmapeq
        | cons a t =>
          cases t with
          | nil =>
            rw [hF] at hmapeq
            simp only [List.map_cons, List.map_nil, List.cons.injEq, and_true] at hmapeq
            obtain ⟨hgroups, g', hg', hmemg⟩ := hsing a hF
            rw [hgroups, hmapeq]
            exact ⟨rfl, g', by rw [← hmapeq]; exact hg', hmemg⟩
          | cons b bs =>
            rw [hF] at hmapeq
            simp at hmapeq
      · intro hlen
        apply hnon
        have hlena : ((primaryStep st k0).2.enum.filter
              (fun p => p.2.value.gid = nu.value.gid)).length
            = (st.2.enum.filter (fun p => p.2.value.gid = nu.value.gid)).length := by
          rw [← List.length_map _ Prod.fst, hmapeq, List.length_map]
        omega

theorem mem_keys_lookupA {α : Type} (m : List (Chars × α)) (k : Chars)
    (h : k ∈ m.map Prod.fst) : ∃ v, lookupA m k = some v := by
  induction m with
  | nil => simp at h
  | cons hd tl ih =>
    obtain ⟨a, w⟩ := hd
    by_cases hak : a = k
    · exact ⟨w, by simp [lookupA, hak]⟩
    · simp only [List.map_cons, List.mem_cons] at h
      rcases h with h | h
      · exact absurd h.symm hak
      · obtain ⟨v, hv⟩ := ih h
        exact ⟨v, by simp [lookupA, hak, hv]⟩

theorem lookupA_mem {α : Type} (m : List (Chars × α)) (k : Chars) (v : α)
    (h : lookupA m k = some v) : (k, v) ∈ m := by
  induction m with
  | nil => exact absurd h (by simp [lookupA])
  | cons hd tl ih =>
    obtain ⟨a, w⟩ := hd
    by_cases hak : a = k
    · subst hak
      simp only [lookupA, if_pos rfl] at h
      obtain rfl := Option.some.inj h
      exact List.mem_cons.mpr (Or.inl rfl)
    · simp only [lookupA, if_neg hak] at h
      exact List.mem_cons.mpr (Or.inr (ih h))

theorem keys_foldl_addMemberStep (i : Nat) (names : List Chars) :
    ∀ users : List (Chars × Numbered User),
      (names.foldl (addMemberStep i) users).map Prod.fst = users.map Prod.fst := by
  induction names with
  | nil => intro users; rfl
  | cons name rest ih =>
    intro users
    simp only [List.foldl_cons]
    rw [ih]
    unfold addMemberStep
    split
    · exact keys_updateA ..
    · rfl

theorem keys_foldl_memberGroups (gs : List (Numbered Group)) :
    ∀ (off : Nat) (users : List (Chars × Numbered User)),
      ((List.enumFrom off gs).foldl
          (fun us ig => ig.2.value.members.foldl (addMemberStep ig.1) us) users).map Prod.fst
        = users.map Prod.fst := by
  induction gs with
  | nil => intro off users; rfl
  | cons g rest ih =>
    intro off users
    simp only [List.enumFrom, List.foldl_cons]
    rw [ih (off + 1), keys_foldl_addMemberStep]

theorem keys_memberPass (users : List (Chars × Numbered User))
    (groups : List (Numbered Group)) :
    (memberPass users groups).map Prod.fst = users.map Prod.fst :=
  keys_foldl_memberGroups groups 0 users

/-- C8 (counterexample): the claim's iff - "a user holds a `Member` edge
to group `G` iff the user's name is listed in `G`'s member list" - fails
on the loaded database, because the primary pass **appends** the
username to the primary group's member list without attaching a `Member`
edge.  Loading one user `test` (gid 1002) and one group `teste:x:1002:`
with an empty member list yields a database where `test` is listed in
`teste`'s member list but holds only a `Primary` edge to it. -/
theorem claimC8_counterexample :
    ((importFromStrings "test:x:1002:1002:com:/home/test:/bin/test".data []
        "teste:x:1002:".data).toOption.map (fun db =>
          (db.groups.map (fun g => (g.value.groupname, g.value.members)),
           (lookupA db.users "test".data).map (fun nu => nu.value.groups))))
      = some ([("teste".data, ["test".data])],
              some [(MembershipKind.Primary, 0)]) := by
  decide

/-- C8 (amended): in the database built by `groups_to_users` from
key-consistent users (keyed by their distinct usernames, with no
pre-existing edges): a user holds a `Member` edge to group `i` iff their
name is listed in group `i`'s member list **as parsed from the group
file** (the primary pass then appends the username to the unique
gid-matching group's member list without adding a `Member` edge); when
exactly one group's gid equals the user's own gid, the user holds
exactly one `Primary` edge, to that group, and the user's name is a
member of that group's final member list; zero or multiple gid matches
leave the user with no `Primary` edge, and the load never aborts (the
cross-linking is a total function). -/
theorem claimC8_amended (users : List (Chars × Numbered User)) (groups : List (Numbered Group))
    (hkeys : ∀ kv ∈ users, kv.2.value.username = kv.1)
    (hnodup : (users.map Prod.fst).Nodup)
    (hempty : ∀ kv ∈ users, kv.2.value.groups = []) :
    ∀ k nu', lookupA (groupsToUsers users groups).1 k = some nu' →
      (∀ i, ((MembershipKind.Member, i) ∈ nu'.value.groups
          ↔ ∃ g, groups[i]? = some g ∧ k ∈ g.value.members)) ∧
      (∀ ig, groups.enum.filter (fun p => p.2.value.gid = nu'.value.gid) = [ig] →
          nu'.value.groups.filter (fun e => e.1 == MembershipKind.Primary)
            = [(MembershipKind.Primary, ig.1)] ∧
          ∃ g', (groupsToUsers users groups).2[ig.1]? = some g' ∧
            k ∈ g'.value.members) ∧
      ((groups.enum.filter (fun p => p.2.value.gid = nu'.value.gid)).length ≠ 1 →
          nu'.value.groups.filter (fun e => e.1 == MembershipKind.Primary) = []) := by
  intro k nu' hlk
  have hred : groupsToUsers users groups
      = ((memberPass users groups).map Prod.fst).foldl primaryStep
          (memberPass users groups, groups) := rfl
  rw [hred] at hlk
  have hkmem : k ∈ (memberPass users groups).map Prod.fst := by
    have h1 := lookupA_mem_keys _ _ _ hlk
    rwa [keys_pass2fold] at h1
  have hksnodup : ((memberPass users groups).map Prod.fst).Nodup := by
    rw [keys_memberPass]
    exact hnodup
  obtain ⟨nu0, hnu0⟩ := mem_keys_lookupA _ _ hkmem
  have hmp := memberPass_lookup users groups k
  rw [hnu0] at hmp
  cases hbase : lookupA users k with
  | none =>
    rw [hbase] at hmp
    simp at hmp
  | some base =>
    rw [hbase] at hmp
    simp only [Option.map_some'] at hmp
    obtain rfl := Option.some.inj hmp
    have hbmem := lookupA_mem users k base hbase
    have hbuser : base.value.username = k := hkeys (k, base) hbmem
    have hbgroups : base.value.groups = [] := hempty (k, base) hbmem
    obtain ⟨nu1, hnu1, huser, hgid, hsing, hnon⟩ :=
      pass2fold_spec ((memberPass users groups).map Prod.fst)
        (memberPass users groups, groups) k _ hkmem hksnodup hnu0
    obtain rfl : nu' = nu1 := by
      rw [hlk] at hnu1
      exact Option.some.inj hnu1
    simp only [hbgroups, List.nil_append] at huser hgid hsing hnon
    have hedges : ∀ e ∈ memberEdgesFrom 0 k groups, e.1 = MembershipKind.Member :=
      kind_memberEdgesFrom k groups 0
    have hgid' : nu'.value.gid = base.value.gid := hgid
    refine ⟨?_, ?_, ?_⟩
    · intro i
      have hiff := mem_memberEdgesFrom k i groups 0
      simp only [Nat.sub_zero] at hiff
      rcases hF : groups.enum.filter (fun p => p.2.value.gid = base.value.gid) with
        - | ⟨ig, - | ⟨ig2, tl2⟩⟩
      · rw [hnon (by rw [hF]; simp)]
        rw [hiff]
        constructor
        · rintro ⟨g, hg, hk, -⟩; exact ⟨g, hg, hk⟩
        · rintro ⟨g, hg, hk⟩; exact ⟨g, hg, hk, Nat.zero_le i⟩
      · obtain ⟨hgroups, -⟩ := hsing ig hF
        rw [hgroups]
        rw [List.mem_append]
        constructor
        · rintro (hm | hm)
          · obtain ⟨g, hg, hk, -⟩ := hiff.mp hm
            exact ⟨g, hg, hk⟩
          · simp at hm
        · rintro ⟨g, hg, hk⟩
          exact Or.inl (hiff.mpr ⟨g, hg, hk, Nat.zero_le i⟩)
      · rw [hnon (by rw [hF]; simp)]
        rw [hiff]
        constructor
        · rintro ⟨g, hg, hk, -⟩; exact ⟨g, hg, hk⟩
        · rintro ⟨g, hg, hk⟩; exact ⟨g, hg, hk, Nat.zero_le i⟩
    · intro ig hig
      rw [hgid'] at hig
      obtain ⟨hgroups, g', hg', hmemg⟩ := hsing ig hig
      constructor
      · rw [hgroups, List.filter_append]
        rw [List.filter_eq_nil_iff.mpr (fun e he => by simp [hedges e he])]
        rfl
      · exact ⟨g', by rw [hred]; exact hg', by rwa [hbuser] at hmemg⟩
    · intro hlen
      rw [hgid'] at hlen
      rw [hnon hlen]
      exact List.filter_eq_nil_iff.mpr (fun e he => by simp [hedges e he])

/-- The single-user, single-group database for the C8 witness. -/
def c8User : Numbered User :=
  ⟨0, { source := "u:x:5:5:c:/h:/s".data, pos := .NotAssignedYet, username := "u".data,
        password := .Encrypted "x".data, uid := 5, gid := 5, gecos := "c".data,
        home_dir := "/h".data, shell_path := "/s".data, groups := [] }⟩

def c8Group : Numbered Group :=
  ⟨0, { source := "g:x:5:u".data, groupname := "g".data, password := "x".data,
        gid := 5, members := ["u".data] }⟩

def c8NuRes : Numbered User :=
  ⟨0, { c8User.value with
        groups := [(MembershipKind.Member, 0), (MembershipKind.Primary, 0)] }⟩

/-- C8 (witness): for the one-user/one-group database, user `u` holds
the `Member` edge to group 0 (it is listed in the file's member list)
and exactly one `Primary` edge, and its name is in the final member
list. -/
theorem claimC8_amended_witness :
    ((MembershipKind.Member, 0) ∈ c8NuRes.value.groups
      ↔ ∃ g, ([c8Group] : List (Numbered Group))[0]? = some g ∧ "u".data ∈ g.value.members) ∧
    c8NuRes.value.groups.filter (fun e => e.1 == MembershipKind.Primary)
      = [(MembershipKind.Primary, 0)] := by
  have h := claimC8_amended [("u".data, c8User)] [c8Group]
    (by decide) (by decide) (by decide) "u".data c8NuRes (by decide)
  exact ⟨h.1 0, (h.2.1 (0, c8Group) (by decide)).1⟩

end Umanux
